import Mathlib

/-!
Verification of the "Department of Lost Circuits" stamp-sheet generator
(`sketch.js` and the `EasyGrid` helper class) against its specification.

JavaScript numbers are embedded as `ℚ` (exact rational arithmetic) except
where the 64-bit floating-point representation is itself the object of a
claim (the seed hash), where the rounding of products to IEEE-754 doubles
is modelled explicitly on `ℤ`.  Strings are Lean `String`s; JS UTF-16 code
units are the `Char.toNat` codes (all inputs of interest are in the BMP).
-/

set_option maxRecDepth 8000

namespace LostCircuits

/-! ### Seed hash (`hash` in sketch.js)

```js
function hash(s) {
  let h = 2166136261;
  for (let i = 0; i < s.length; i++) {
    h ^= s.charCodeAt(i);
    h = (h * 16777619) >>> 0;
  }
  return h;
}
```

`h ^= c` coerces both sides with ToInt32 and XORs in 32-bit two's
complement; `h * 16777619` is an IEEE-754 double multiplication whose
exact integer product (magnitude up to about 2^55) is rounded to 53 bits
of significand, ties to even; `>>> 0` is ToUint32. -/

/-- JS `ToInt32`: interpret an unsigned value modulo 2^32 as a signed 32-bit
integer. -/
def toInt32 (u : ℕ) : ℤ :=
  if u % 2 ^ 32 < 2 ^ 31 then ((u % 2 ^ 32 : ℕ) : ℤ)
  else ((u % 2 ^ 32 : ℕ) : ℤ) - 2 ^ 32

/-- Number of binary digits of `n` (0 for 0), with structural fuel so the
kernel can evaluate it. -/
def bitLenAux : ℕ → ℕ → ℕ
  | 0, _ => 0
  | fuel + 1, n => if n = 0 then 0 else bitLenAux fuel (n / 2) + 1

/-- Number of binary digits of `n`. -/
def bitLen (n : ℕ) : ℕ := bitLenAux n n

/-- Round a natural number to the nearest IEEE-754 double (53-bit
significand), ties to even.  Exact for magnitudes up to 2^53. -/
def doubleRoundNat (m : ℕ) : ℕ :=
  if m ≤ 2 ^ 53 then m
  else
    let k := bitLen m - 53
    let q := m / 2 ^ k
    let r := m % 2 ^ k
    if 2 * r < 2 ^ k then q * 2 ^ k
    else if 2 ^ k < 2 * r then (q + 1) * 2 ^ k
    else if q % 2 = 0 then q * 2 ^ k else (q + 1) * 2 ^ k

/-- Round an integer to the nearest IEEE-754 double, ties to even
(rounding commutes with negation). -/
def doubleRound (p : ℤ) : ℤ :=
  p.sign * (doubleRoundNat p.natAbs : ℤ)

/-- One iteration of the `hash` loop: 32-bit XOR with the next UTF-16 code
unit, double-precision multiply by 16777619, then `>>> 0`. -/
def hashStep (u c : ℕ) : ℕ :=
  let x := Nat.xor (u % 2 ^ 32) (c % 2 ^ 32)
  let h : ℤ := toInt32 x
  ((doubleRound (h * 16777619)) % (2 ^ 32 : ℤ)).toNat

/-- The `hash` function of sketch.js over a list of UTF-16 code units. -/
def jsHash (units : List ℕ) : ℕ :=
  units.foldl hashStep 2166136261

/-- UTF-16 code units of a string (valid for BMP characters, which covers
every string the sketch hashes). -/
def codeUnits (s : String) : List ℕ :=
  s.data.map Char.toNat

/-- Per-stamp seed as computed in `drawSheet`:
`hash(`${baseSeed}::${d.id}`)`. -/
def seedOf (runSeed : ℕ) (key : String) : ℕ :=
  jsHash (codeUnits (toString runSeed ++ "::" ++ key))

/-- UTF-8 encoding of a single code point. -/
def utf8Enc (c : ℕ) : List ℕ :=
  if c < 0x80 then [c]
  else if c < 0x800 then [0xC0 + c / 64, 0x80 + c % 64]
  else if c < 0x10000 then
    [0xE0 + c / 4096, 0x80 + c / 64 % 64, 0x80 + c % 64]
  else
    [0xF0 + c / 262144, 0x80 + c / 4096 % 64, 0x80 + c / 64 % 64,
      0x80 + c % 64]

/-- UTF-8 bytes of a string. -/
def utf8Bytes (s : String) : List ℕ :=
  s.data.flatMap (fun ch => utf8Enc ch.toNat)

/-- Reference FNV-1a over a byte list, exactly as the spec words it:
initialize to 2166136261, XOR each byte, multiply by 16777619 modulo
2^32. -/
def fnv1a (bytes : List ℕ) : ℕ :=
  bytes.foldl (fun h b => Nat.xor h b * 16777619 % 2 ^ 32) 2166136261

/-- The spec's seed function: FNV-1a over the UTF-8 bytes of
`"{runSeed}::{key}"`. -/
def fnvSeedSpec (runSeed : ℕ) (key : String) : ℕ :=
  fnv1a (utf8Bytes (toString runSeed ++ "::" ++ key))

/-- Every iteration of the hash loop returns a value below 2^32. -/
theorem hashStep_lt (u c : ℕ) : hashStep u c < 2 ^ 32 := by
  have h2 : 0 ≤
      doubleRound (toInt32 (Nat.xor (u % 2 ^ 32) (c % 2 ^ 32)) * 16777619) %
        (2 ^ 32 : ℤ) :=
    Int.emod_nonneg _ (by norm_num)
  have h3 :
      doubleRound (toInt32 (Nat.xor (u % 2 ^ 32) (c % 2 ^ 32)) * 16777619) %
        (2 ^ 32 : ℤ) < 2 ^ 32 :=
    Int.emod_lt_of_pos _ (by norm_num)
  simp only [hashStep]
  omega

/-- The hash of any code-unit list is an unsigned 32-bit integer. -/
theorem jsHash_lt (units : List ℕ) : jsHash units < 2 ^ 32 := by
  suffices h : ∀ u, u < 2 ^ 32 → units.foldl hashStep u < 2 ^ 32 from
    h _ (by norm_num)
  induction units with
  | nil => intro u hu; simpa using hu
  | cons c cs ih => intro u _; simpa using ih _ (hashStep_lt u c)

/-- C1 counterexample: at the concrete pair `(42, "Nokia 3310")` the
sketch's `hash` does not return FNV-1a modulo 2^32 over the UTF-8 bytes of
`"42::Nokia 3310"` — the JavaScript multiplication `h * 16777619` is an
IEEE-754 double product whose low bits are rounded away before `>>> 0`. -/
theorem C1_counterexample :
    seedOf 42 "Nokia 3310" = 891790784 ∧
    fnvSeedSpec 42 "Nokia 3310" = 2286247030 ∧
    seedOf 42 "Nokia 3310" ≠ fnvSeedSpec 42 "Nokia 3310" := by
  refine ⟨by decide, by decide, by decide⟩

/-- C1 amended: the per-stamp seed function is an FNV-1a-shaped hash of
the UTF-16 code units of `"{runSeed}::{key}"` whose multiply is rounded to
double precision; it is a pure function (two evaluations always agree),
always returns an unsigned 32-bit integer, and separates the spec's
example seeds 42 and 43. -/
theorem C1_seed_deterministic_uint32 :
    (∀ runSeed key, seedOf runSeed key = seedOf runSeed key ∧
      seedOf runSeed key < 2 ^ 32) ∧
    seedOf 42 "A" ≠ seedOf 43 "A" := by
  refine ⟨fun runSeed key => ⟨rfl, jsHash_lt _⟩, by decide⟩

/-! ### Sheet slicing and navigation (`drawSheet`, `keyPressed`) -/

/-- `COLS * ROWS`: records per sheet. -/
def perSheet : ℕ := 5 * 4

/-- `start = sheetIndex * perSheet`. -/
def sheetStart (idx : ℕ) : ℕ := idx * perSheet

/-- `end = min(start + perSheet, devices.length)`. -/
def sheetEnd (n idx : ℕ) : ℕ := min (sheetStart idx + perSheet) n

/-- The record indices a sheet renders: the loop `for (i = start; i < end;
i++)`. -/
def sheetRecords (n idx : ℕ) : List ℕ :=
  List.range' (sheetStart idx) (sheetEnd n idx - sheetStart idx)

/-- `total = max(1, ceil(devices.length / ps))` from `keyPressed`. -/
def totalSheets (n : ℕ) : ℕ :=
  max 1 (⌈(n : ℚ) / (perSheet : ℚ)⌉).toNat

/-- RIGHT_ARROW: `sheetIndex = (sheetIndex + 1) % total`. -/
def nextSheet (n idx : ℕ) : ℕ := (idx + 1) % totalSheets n

/-- LEFT_ARROW: `sheetIndex = (sheetIndex - 1 + total) % total`. -/
def prevSheet (n idx : ℕ) : ℕ := (idx + totalSheets n - 1) % totalSheets n

/-- C4: with a 5×4 grid and 23 records, sheet 0 renders records 0–19,
sheet 1 renders records 20–22, there are 2 sheets in total, advancing from
sheet 1 wraps to sheet 0, and retreating from sheet 0 wraps to sheet 1
(the last sheet). -/
theorem C4_sheet_arithmetic :
    sheetRecords 23 0 =
      [0, 1, 2, 3, 4, 5, 6, 7, 8, 9, 10, 11, 12, 13, 14, 15, 16, 17, 18,
        19] ∧
    sheetRecords 23 1 = [20, 21, 22] ∧
    totalSheets 23 = 2 ∧
    nextSheet 23 1 = 0 ∧
    prevSheet 23 0 = 1 := by
  have ht : totalSheets 23 = 2 := by
    have hc : ⌈(23 : ℚ) / (20 : ℚ)⌉ = 2 := by
      rw [Int.ceil_eq_iff]
      norm_num
    simp [totalSheets, perSheet, hc]
  refine ⟨by decide, by decide, ht, by simp [nextSheet, ht], by simp [prevSheet, ht]⟩

/-! ### EasyGrid (EasyGrid.js)

The constructor precomputes `moduleWidth = (width - gutterX*(cols-1))/cols`
and `moduleHeight` analogously, then pushes one module per `(row, col)` in
row-major order. -/

/-- A grid cell ("module") as pushed by the `EasyGrid` constructor. -/
structure Module where
  x : ℚ
  y : ℚ
  width : ℚ
  height : ℚ
  col : ℕ
  row : ℕ
  index : ℕ
  deriving DecidableEq

/-- The `EasyGrid` object state after construction. -/
structure EasyGrid where
  x : ℚ
  y : ℚ
  width : ℚ
  height : ℚ
  cols : ℕ
  rows : ℕ
  gutterX : ℚ
  gutterY : ℚ
  moduleWidth : ℚ
  moduleHeight : ℚ
  modules : List Module

/-- `new EasyGrid(options)`: computes the module dimensions
`(width - gutterX*(cols-1))/cols` (respectively for heights) and
precomputes all modules in row-major order, each at
`x + col*(moduleWidth + gutterX)` and `y + row*(moduleHeight + gutterY)`. -/
def EasyGrid.make (x y width height : ℚ) (cols rows : ℕ)
    (gutterX gutterY : ℚ) : EasyGrid where
  x := x
  y := y
  width := width
  height := height
  cols := cols
  rows := rows
  gutterX := gutterX
  gutterY := gutterY
  moduleWidth := (width - gutterX * ((cols : ℚ) - 1)) / (cols : ℚ)
  moduleHeight := (height - gutterY * ((rows : ℚ) - 1)) / (rows : ℚ)
  modules :=
    (List.range rows).flatMap fun (r : ℕ) =>
      (List.range cols).map fun (c : ℕ) =>
        { x := x + (c : ℚ) *
            ((width - gutterX * ((cols : ℚ) - 1)) / (cols : ℚ) + gutterX)
          y := y + (r : ℚ) *
            ((height - gutterY * ((rows : ℚ) - 1)) / (rows : ℚ) + gutterY)
          width := (width - gutterX * ((cols : ℚ) - 1)) / (cols : ℚ)
          height := (height - gutterY * ((rows : ℚ) - 1)) / (rows : ℚ)
          col := c
          row := r
          index := r * cols + c }

/-- The module the constructor pushes for column `c`, row `r`. -/
def builtModule (x y width height : ℚ) (cols rows : ℕ)
    (gutterX gutterY : ℚ) (c r : ℕ) : Module where
  x := x + (c : ℚ) *
    ((width - gutterX * ((cols : ℚ) - 1)) / (cols : ℚ) + gutterX)
  y := y + (r : ℚ) *
    ((height - gutterY * ((rows : ℚ) - 1)) / (rows : ℚ) + gutterY)
  width := (width - gutterX * ((cols : ℚ) - 1)) / (cols : ℚ)
  height := (height - gutterY * ((rows : ℚ) - 1)) / (rows : ℚ)
  col := c
  row := r
  index := r * cols + c

theorem EasyGrid.cols_make (x y width height : ℚ) (cols rows : ℕ)
    (gutterX gutterY : ℚ) :
    (EasyGrid.make x y width height cols rows gutterX gutterY).cols = cols :=
  rfl

theorem EasyGrid.rows_make (x y width height : ℚ) (cols rows : ℕ)
    (gutterX gutterY : ℚ) :
    (EasyGrid.make x y width height cols rows gutterX gutterY).rows = rows :=
  rfl

theorem EasyGrid.modules_make (x y width height : ℚ) (cols rows : ℕ)
    (gutterX gutterY : ℚ) :
    (EasyGrid.make x y width height cols rows gutterX gutterY).modules =
      (List.range rows).flatMap fun (r : ℕ) =>
        (List.range cols).map fun (c : ℕ) =>
          builtModule x y width height cols rows gutterX gutterY c r :=
  rfl

/-- `getModule(col, row)`: logs and returns `null` (`none`) when out of
bounds, else returns `modules[row * cols + col]`. -/
def EasyGrid.getModule (g : EasyGrid) (col row : ℤ) : Option Module :=
  if col < 0 ∨ (g.cols : ℤ) ≤ col ∨ row < 0 ∨ (g.rows : ℤ) ≤ row then none
  else g.modules[(row * g.cols + col).toNat]?

/-- `getModuleByIndex(index)`: logs and returns `null` (`none`) when the
index is out of range, else returns `modules[index]`. -/
def EasyGrid.getModuleByIndex (g : EasyGrid) (index : ℤ) : Option Module :=
  if index < 0 ∨ (g.modules.length : ℤ) ≤ index then none
  else g.modules[index.toNat]?

/-- Method-call view of `getModule`: a JS method could also mutate `this`;
the body of `getModule` does not, so the resulting receiver state is the
unchanged grid. -/
def EasyGrid.getModuleS (g : EasyGrid) (col row : ℤ) :
    Option Module × EasyGrid :=
  (g.getModule col row, g)

/-- Method-call view of `getModuleByIndex`; the body performs no
mutation. -/
def EasyGrid.getModuleByIndexS (g : EasyGrid) (index : ℤ) :
    Option Module × EasyGrid :=
  (g.getModuleByIndex index, g)

/-- The row-major nested loop produces `rows * cols` values. -/
theorem length_flatMap_range_map {α : Type} (f : ℕ → ℕ → α)
    (rows cols : ℕ) :
    ((List.range rows).flatMap fun r =>
      (List.range cols).map (f r)).length = rows * cols := by
  induction rows with
  | zero => simp
  | succ n ih =>
    rw [List.range_succ, List.flatMap_append]
    simp [ih, Nat.succ_mul]

/-- Row-major indexing: entry `row * cols + col` of the nested-loop list
is the value generated for `(row, col)`. -/
theorem getElem?_flatMap_range_map {α : Type} (f : ℕ → ℕ → α)
    {cols col : ℕ} (hc : col < cols) :
    ∀ rows row, row < rows →
      ((List.range rows).flatMap fun r =>
        (List.range cols).map (f r))[row * cols + col]? = some (f row col) := by
  intro rows
  induction rows with
  | zero => intro row hr; omega
  | succ n ih =>
    intro row hr
    rw [List.range_succ, List.flatMap_append]
    rcases Nat.lt_or_ge row n with h | h
    · rw [List.getElem?_append_left]
      · exact ih row h
      · rw [length_flatMap_range_map]
        calc row * cols + col < row * cols + cols := by omega
          _ = (row + 1) * cols := by ring
          _ ≤ n * cols := Nat.mul_le_mul_right _ (by omega)
    · have hrow : row = n := by omega
      subst hrow
      have hlen1 : ((List.range row).flatMap fun r =>
          (List.range cols).map (f r)).length ≤ row * cols + col := by
        rw [length_flatMap_range_map]; omega
      rw [List.getElem?_append_right hlen1]
      rw [length_flatMap_range_map, Nat.add_sub_cancel_left]
      simp [List.getElem?_map, List.getElem?_range hc]

/-- The constructed grid holds `rows * cols` modules. -/
theorem EasyGrid.make_modules_length (x y width height : ℚ)
    (cols rows : ℕ) (gutterX gutterY : ℚ) :
    (EasyGrid.make x y width height cols rows gutterX gutterY).modules.length
      = rows * cols := by
  rw [EasyGrid.modules_make]
  exact length_flatMap_range_map _ rows cols

/-- In-bounds `getModule` returns exactly the module the constructor
pushed for `(col, row)`. -/
theorem EasyGrid.getModule_make (x y width height : ℚ) (cols rows : ℕ)
    (gutterX gutterY : ℚ) {col row : ℕ} (hc : col < cols) (hr : row < rows) :
    (EasyGrid.make x y width height cols rows gutterX gutterY).getModule col
        row =
      some (builtModule x y width height cols rows gutterX gutterY col row)
    := by
  rw [EasyGrid.getModule, EasyGrid.cols_make, EasyGrid.rows_make,
    EasyGrid.modules_make]
  rw [if_neg (by omega)]
  rw [show ((row : ℤ) * (cols : ℤ) + (col : ℤ)) =
      ((row * cols + col : ℕ) : ℤ) by push_cast; ring]
  rw [Int.toNat_natCast]
  exact getElem?_flatMap_range_map _ hc rows row hr

/-- In-bounds `getModuleByIndex` at `row * cols + col` returns the same
module. -/
theorem EasyGrid.getModuleByIndex_make (x y width height : ℚ)
    (cols rows : ℕ) (gutterX gutterY : ℚ) {col row : ℕ} (hc : col < cols)
    (hr : row < rows) :
    (EasyGrid.make x y width height cols rows gutterX
        gutterY).getModuleByIndex (((row * cols + col : ℕ) : ℤ)) =
      some (builtModule x y width height cols rows gutterX gutterY col row)
    := by
  have hidxlt : row * cols + col < rows * cols := by
    calc row * cols + col < row * cols + cols := by omega
      _ = (row + 1) * cols := by ring
      _ ≤ rows * cols := Nat.mul_le_mul_right _ (by omega)
  rw [EasyGrid.getModuleByIndex, EasyGrid.make_modules_length]
  rw [if_neg (by omega)]
  rw [Int.toNat_natCast, EasyGrid.modules_make]
  exact getElem?_flatMap_range_map _ hc rows row hr

/-- C6: for every grid and every in-bounds `(column, row)`, lookup by
`(column, row)` and lookup by the linear index `row * columns + column`
return the same cell, and that cell carries the constructed geometry
(position, size) together with its column, row, and linear index. -/
theorem C6_lookup_agreement (x y width height : ℚ) (cols rows : ℕ)
    (gutterX gutterY : ℚ) (col row : ℕ) (hc : col < cols) (hr : row < rows) :
    (EasyGrid.make x y width height cols rows gutterX gutterY).getModule col
        row =
      (EasyGrid.make x y width height cols rows gutterX
        gutterY).getModuleByIndex (((row * cols + col : ℕ) : ℤ)) ∧
    (EasyGrid.make x y width height cols rows gutterX gutterY).getModule col
        row =
      some
        { x := x + (col : ℚ) *
            ((width - gutterX * ((cols : ℚ) - 1)) / (cols : ℚ) + gutterX)
          y := y + (row : ℚ) *
            ((height - gutterY * ((rows : ℚ) - 1)) / (rows : ℚ) + gutterY)
          width := (width - gutterX * ((cols : ℚ) - 1)) / (cols : ℚ)
          height := (height - gutterY * ((rows : ℚ) - 1)) / (rows : ℚ)
          col := col
          row := row
          index := row * cols + col } := by
  refine ⟨?_, ?_⟩
  · rw [EasyGrid.getModule_make x y width height cols rows gutterX gutterY
      hc hr,
      EasyGrid.getModuleByIndex_make x y width height cols rows gutterX
      gutterY hc hr]
  · exact EasyGrid.getModule_make x y width height cols rows gutterX gutterY
      hc hr

/-- Witness for C6 at the sketch's actual grid (origin 100, 2200×2800,
5×4, gutters 60) and cell (2, 1). -/
theorem C6_lookup_agreement_witness :
    (EasyGrid.make 100 100 2200 2800 5 4 60 60).getModule 2 1 =
      (EasyGrid.make 100 100 2200 2800 5 4 60 60).getModuleByIndex
        (((1 * 5 + 2 : ℕ) : ℤ)) ∧
    (EasyGrid.make 100 100 2200 2800 5 4 60 60).getModule 2 1 =
      some
        { x := 100 + (2 : ℚ) *
            ((2200 - 60 * ((5 : ℚ) - 1)) / (5 : ℚ) + 60)
          y := 100 + (1 : ℚ) *
            ((2800 - 60 * ((4 : ℚ) - 1)) / (4 : ℚ) + 60)
          width := (2200 - 60 * ((5 : ℚ) - 1)) / (5 : ℚ)
          height := (2800 - 60 * ((4 : ℚ) - 1)) / (4 : ℚ)
          col := 2
          row := 1
          index := 1 * 5 + 2 } :=
  C6_lookup_agreement 100 100 2200 2800 5 4 60 60 2 1 (by decide) (by decide)

/-- C7: every cell of a constructed grid has width
`(width - gutterX*(cols-1))/cols` and height analogously, horizontally
adjacent cells satisfy `next.x = cell.x + cell.width + gutterX`, and
vertically adjacent cells satisfy `below.y = cell.y + cell.height +
gutterY`. -/
theorem C7_tiling_invariant (x y width height : ℚ) (cols rows : ℕ)
    (gutterX gutterY : ℚ) (hcols : 1 ≤ cols) (hrows : 1 ≤ rows)
    (hgx : 0 ≤ gutterX) (hgy : 0 ≤ gutterY) :
    (∀ m ∈ (EasyGrid.make x y width height cols rows gutterX
        gutterY).modules,
      m.width = (width - gutterX * ((cols : ℚ) - 1)) / (cols : ℚ) ∧
      m.height = (height - gutterY * ((rows : ℚ) - 1)) / (rows : ℚ)) ∧
    (∀ col row : ℕ, col + 1 < cols → row < rows →
      ∃ m m',
        (EasyGrid.make x y width height cols rows gutterX
          gutterY).getModule col row = some m ∧
        (EasyGrid.make x y width height cols rows gutterX
          gutterY).getModule ((col + 1 : ℕ)) row = some m' ∧
        m'.x = m.x + m.width + gutterX) ∧
    (∀ col row : ℕ, col < cols → row + 1 < rows →
      ∃ m m',
        (EasyGrid.make x y width height cols rows gutterX
          gutterY).getModule col row = some m ∧
        (EasyGrid.make x y width height cols rows gutterX
          gutterY).getModule col ((row + 1 : ℕ)) = some m' ∧
        m'.y = m.y + m.height + gutterY) := by
  refine ⟨?_, ?_, ?_⟩
  · intro m hm
    rw [EasyGrid.modules_make] at hm
    simp only [List.mem_flatMap, List.mem_map, List.mem_range] at hm
    obtain ⟨r, _, c, _, rfl⟩ := hm
    exact ⟨rfl, rfl⟩
  · intro col row h1 h2
    refine ⟨builtModule x y width height cols rows gutterX gutterY col row,
      builtModule x y width height cols rows gutterX gutterY (col + 1) row,
      EasyGrid.getModule_make x y width height cols rows gutterX gutterY
        (by omega) h2,
      EasyGrid.getModule_make x y width height cols rows gutterX gutterY
        h1 h2, ?_⟩
    simp only [builtModule]
    push_cast
    ring
  · intro col row h1 h2
    refine ⟨builtModule x y width height cols rows gutterX gutterY col row,
      builtModule x y width height cols rows gutterX gutterY col (row + 1),
      EasyGrid.getModule_make x y width height cols rows gutterX gutterY
        h1 (by omega),
      EasyGrid.getModule_make x y width height cols rows gutterX gutterY
        h1 h2, ?_⟩
    simp only [builtModule]
    push_cast
    ring

/-- Witness for C7 at the sketch's actual grid parameters. -/
theorem C7_tiling_invariant_witness :
    (∀ m ∈ (EasyGrid.make 100 100 2200 2800 5 4 60 60).modules,
      m.width = (2200 - 60 * ((5 : ℚ) - 1)) / (5 : ℚ) ∧
      m.height = (2800 - 60 * ((4 : ℚ) - 1)) / (4 : ℚ)) ∧
    (∀ col row : ℕ, col + 1 < 5 → row < 4 →
      ∃ m m',
        (EasyGrid.make 100 100 2200 2800 5 4 60 60).getModule col row =
          some m ∧
        (EasyGrid.make 100 100 2200 2800 5 4 60 60).getModule
          ((col + 1 : ℕ)) row = some m' ∧
        m'.x = m.x + m.width + 60) ∧
    (∀ col row : ℕ, col < 5 → row + 1 < 4 →
      ∃ m m',
        (EasyGrid.make 100 100 2200 2800 5 4 60 60).getModule col row =
          some m ∧
        (EasyGrid.make 100 100 2200 2800 5 4 60 60).getModule col
          ((row + 1 : ℕ)) = some m' ∧
        m'.y = m.y + m.height + 60) :=
  C7_tiling_invariant 100 100 2200 2800 5 4 60 60 (by decide) (by decide)
    (by norm_num) (by norm_num)

/-- C8: out-of-range lookups — any `(col, row)` outside the grid and any
linear index outside `[0, cols*rows)` — return the absent sentinel `null`
(`none`) and leave the grid state unchanged. -/
theorem C8_out_of_bounds_lookup (x y width height : ℚ) (cols rows : ℕ)
    (gutterX gutterY : ℚ) (col row index : ℤ)
    (hcr : col < 0 ∨ (cols : ℤ) ≤ col ∨ row < 0 ∨ (rows : ℤ) ≤ row)
    (hidx : index < 0 ∨ ((cols * rows : ℕ) : ℤ) ≤ index) :
    (EasyGrid.make x y width height cols rows gutterX gutterY).getModuleS
      col row =
      (none, EasyGrid.make x y width height cols rows gutterX gutterY) ∧
    (EasyGrid.make x y width height cols rows gutterX
      gutterY).getModuleByIndexS index =
      (none, EasyGrid.make x y width height cols rows gutterX gutterY) := by
  constructor
  · simp only [EasyGrid.getModuleS, EasyGrid.getModule, EasyGrid.cols_make,
      EasyGrid.rows_make]
    rw [if_pos hcr]
  · simp only [EasyGrid.getModuleByIndexS, EasyGrid.getModuleByIndex,
      EasyGrid.make_modules_length]
    rw [if_pos]
    rcases hidx with h | h
    · exact Or.inl h
    · refine Or.inr ?_
      rw [show ((rows * cols : ℕ) : ℤ) = ((cols * rows : ℕ) : ℤ) by
        rw [Nat.mul_comm]]
      exact h

/-- Witness for C8: the sketch grid, probed at column 5 (one past the
last), row 0, and linear index 20 (one past the last). -/
theorem C8_out_of_bounds_lookup_witness :
    (EasyGrid.make 100 100 2200 2800 5 4 60 60).getModuleS 5 0 =
      (none, EasyGrid.make 100 100 2200 2800 5 4 60 60) ∧
    (EasyGrid.make 100 100 2200 2800 5 4 60 60).getModuleByIndexS 20 =
      (none, EasyGrid.make 100 100 2200 2800 5 4 60 60) :=
  C8_out_of_bounds_lookup 100 100 2200 2800 5 4 60 60 5 0 20
    (by decide) (by decide)

/-! ### Procedural circuit traces (`drawCircuits`, `drawCircuits_toPG`)

Both routines draw `n` random-walk polylines inside the inner frame, where
`n = floor(map(yr, 1960, 2020, hi, lo))` and `yr` is the release year
clamped to 1960–2020 (1990 when unknown).  The pseudo-random stream is
modelled as an abstract sequence `rng : ℕ → ℚ` of unit-interval draws,
consumed in source order: per trace 2 draws for the start point, then 2
per step (length, direction). -/

/-- p5 `map(value, start1, stop1, start2, stop2)`. -/
def p5map (v a b c d : ℚ) : ℚ := (v - a) / (b - a) * (d - c) + c

/-- p5 `constrain(n, low, high) = max(min(n, high), low)`. -/
def p5constrain (n low high : ℚ) : ℚ := max (min n high) low

/-- p5 `random(a, b)` for the `k`-th draw of the stream. -/
def p5rand (rng : ℕ → ℚ) (k : ℕ) (a b : ℚ) : ℚ := a + rng k * (b - a)

/-- The inner frame of a stamp. -/
structure Frame where
  ix : ℚ
  iy : ℚ
  iw : ℚ
  ih : ℚ
  deriving DecidableEq

/-- `getInnerFrame(x, y, w, h)`: FRAME_PAD = 12, then INNER_INSET + 5 =
10 further in on every side. -/
def getInnerFrame (x y w h : ℚ) : Frame where
  ix := (x + 12) + (5 + 5)
  iy := (y + 12) + (5 + 5)
  iw := (w - 12 * 2) - (5 + 5) * 2
  ih := (h - 12 * 2) - (5 + 5) * 2

/-- Year used by both trace routines: 1990 when the release year is NaN,
else `constrain(release_year, 1960, 2020)`. -/
def circuitYr (releaseYear : Option ℤ) : ℚ :=
  match releaseYear with
  | none => 1990
  | some yr => p5constrain (yr : ℚ) 1960 2020

/-- RGB `drawCircuits` trace count: `floor(map(yr, 1960, 2020, 18, 7))`. -/
def baseLinesRGB (releaseYear : Option ℤ) : ℤ :=
  ⌊p5map (circuitYr releaseYear) 1960 2020 18 7⌋

/-- Print-plate `drawCircuits_toPG` trace count:
`floor(map(yr, 1960, 2020, 25, 8))`. -/
def numLinesPG (releaseYear : Option ℤ) : ℤ :=
  ⌊p5map (circuitYr releaseYear) 1960 2020 25 8⌋

/-- The random-walk steps of one trace: each step draws a length in
`[stepLo, stepHi)` and one of four directions, moves orthogonally, then
re-clamps `px` to the inner frame and `py` to `[iy, clampYHi]`; returns
the visited (clamped) vertices in order. -/
def traceSteps (rng : ℕ → ℚ) (f : Frame) (stepLo stepHi clampYHi : ℚ) :
    ℕ → ℕ → ℚ → ℚ → List (ℚ × ℚ)
  | 0, _, _, _ => []
  | nSteps + 1, k, px, py =>
    let step := p5rand rng k stepLo stepHi
    let dir : ℤ := ⌊p5rand rng (k + 1) 0 4⌋
    let px1 := if dir = 0 then px + step else if dir = 1 then px - step
      else px
    let py1 := if dir = 0 ∨ dir = 1 then py
      else if dir = 2 then py + step else py - step
    let px2 := p5constrain px1 f.ix (f.ix + f.iw)
    let py2 := p5constrain py1 f.iy clampYHi
    (px2, py2) ::
      traceSteps rng f stepLo stepHi clampYHi nSteps (k + 2) px2 py2

/-- `drawCircuits(d, x, y, w, h)` (RGB): the trace polylines it draws, as
vertex lists.  Start `py` avoids the bottom 60 of the frame; 3 steps of
length `random(22, 42)`; `py` re-clamped to
`min(iy + ih - 70, footerTop - 8)` with `footerTop = y + h - 150`. -/
def drawCircuits (showTraces : Bool) (rng : ℕ → ℚ)
    (releaseYear : Option ℤ) (x y w h : ℚ) : List (List (ℚ × ℚ)) :=
  if showTraces = false then []
  else
    let f := getInnerFrame x y w h
    let footerTop := y + h - 150
    (List.range (baseLinesRGB releaseYear).toNat).map fun (i : ℕ) =>
      let k0 := 8 * i
      let px := p5rand rng k0 f.ix (f.ix + f.iw)
      let py := p5rand rng (k0 + 1) f.iy (f.iy + f.ih - 60)
      (px, py) ::
        traceSteps rng f 22 42 (min (f.iy + f.ih - 70) (footerTop - 8)) 3
          (k0 + 2) px py

/-- `drawCircuits_toPG(g, d, x, y, w, h)` (print plate): starts anywhere
in the inner frame; 4 steps of length `random(20, 45)`; `py` re-clamped to
the full inner frame `iy + ih`. -/
def drawCircuits_toPG (showTraces : Bool) (rng : ℕ → ℚ)
    (releaseYear : Option ℤ) (x y w h : ℚ) : List (List (ℚ × ℚ)) :=
  if showTraces = false then []
  else
    let f := getInnerFrame x y w h
    (List.range (numLinesPG releaseYear).toNat).map fun (i : ℕ) =>
      let k0 := 10 * i
      let px := p5rand rng k0 f.ix (f.ix + f.iw)
      let py := p5rand rng (k0 + 1) f.iy (f.iy + f.ih)
      (px, py) ::
        traceSteps rng f 20 45 (f.iy + f.ih) 4 (k0 + 2) px py

/-- A trace's step list has exactly one vertex per step. -/
theorem traceSteps_length (rng : ℕ → ℚ) (f : Frame)
    (stepLo stepHi clampYHi : ℚ) :
    ∀ nSteps k px py,
      (traceSteps rng f stepLo stepHi clampYHi nSteps k px py).length =
        nSteps := by
  intro n
  induction n with
  | zero => intro k px py; rfl
  | succ m ih => intro k px py; simp [traceSteps, ih]

/-- The RGB routine draws `floor(map(yr, 1960, 2020, 18, 7))` traces. -/
theorem drawCircuits_length (rng : ℕ → ℚ) (releaseYear : Option ℤ)
    (x y w h : ℚ) :
    (drawCircuits true rng releaseYear x y w h).length =
      (baseLinesRGB releaseYear).toNat := by
  simp [drawCircuits]

/-- The print-plate routine draws `floor(map(yr, 1960, 2020, 25, 8))`
traces. -/
theorem drawCircuits_toPG_length (rng : ℕ → ℚ) (releaseYear : Option ℤ)
    (x y w h : ℚ) :
    (drawCircuits_toPG true rng releaseYear x y w h).length =
      (numLinesPG releaseYear).toNat := by
  simp [drawCircuits_toPG]

/-- The clamped year lies in `[1960, 2020]`. -/
theorem circuitYr_bounds (releaseYear : Option ℤ) :
    (1960 : ℚ) ≤ circuitYr releaseYear ∧ circuitYr releaseYear ≤ 2020 := by
  cases releaseYear with
  | none => norm_num [circuitYr]
  | some yr =>
    constructor
    · exact le_max_right _ _
    · exact max_le (min_le_right _ _) (by norm_num)

/-- C3 counterexample: for a device released in 1960 the direct-color
routine draws 18 traces while the print-mode routine draws 25 — the trace
counts (and, per `traceSteps`, the step counts and clamp regions) are not
identical between the two composers. -/
theorem C3_counterexample :
    (drawCircuits true (fun _ => 0) (some 1960) 0 0 400 400).length = 18 ∧
    (drawCircuits_toPG true (fun _ => 0) (some 1960) 0 0 400 400).length =
      25 ∧
    (drawCircuits true (fun _ => 0) (some 1960) 0 0 400 400).length ≠
      (drawCircuits_toPG true (fun _ => 0) (some 1960) 0 0 400 400).length
    := by
  have hy : circuitYr (some 1960) = 1960 := by
    simp only [circuitYr, p5constrain]
    norm_num [min_def, max_def]
  have hmap1 : p5map (1960 : ℚ) 1960 2020 18 7 = 18 := by
    rw [p5map]; norm_num
  have hmap2 : p5map (1960 : ℚ) 1960 2020 25 8 = 25 := by
    rw [p5map]; norm_num
  have h1 : (drawCircuits true (fun _ => 0) (some 1960) 0 0 400 400).length
      = 18 := by
    rw [drawCircuits_length, baseLinesRGB, hy, hmap1]
    simp
  have h2 : (drawCircuits_toPG true (fun _ => 0) (some 1960) 0 0 400
      400).length = 25 := by
    rw [drawCircuits_toPG_length, numLinesPG, hy, hmap2]
    simp
  refine ⟨h1, h2, ?_⟩
  rw [h1, h2]
  decide

/-- C3 amended: the print-mode circuit routine follows the same
random-walk structure but with different parameters: for every device the
trace count is `floor(map(yr, 1960, 2020, 25, 8))` against the RGB
routine's `floor(map(yr, 1960, 2020, 18, 7))` — strictly more traces for
every year — and each print-mode trace has 4 random-walk steps (5
vertices) against the RGB routine's 3 (4 vertices). -/
theorem C3_trace_parameters (rng : ℕ → ℚ) (releaseYear : Option ℤ)
    (x y w h : ℚ) :
    (drawCircuits true rng releaseYear x y w h).length =
      (baseLinesRGB releaseYear).toNat ∧
    (drawCircuits_toPG true rng releaseYear x y w h).length =
      (numLinesPG releaseYear).toNat ∧
    (baseLinesRGB releaseYear).toNat < (numLinesPG releaseYear).toNat ∧
    (∀ t ∈ drawCircuits true rng releaseYear x y w h,
      t.length = 1 + 3) ∧
    (∀ t ∈ drawCircuits_toPG true rng releaseYear x y w h,
      t.length = 1 + 4) := by
  obtain ⟨hyr1, hyr2⟩ := circuitYr_bounds releaseYear
  have hA : (7 : ℚ) ≤ p5map (circuitYr releaseYear) 1960 2020 18 7 := by
    rw [p5map]; linarith
  have hAB : p5map (circuitYr releaseYear) 1960 2020 18 7 + 1 ≤
      p5map (circuitYr releaseYear) 1960 2020 25 8 := by
    rw [p5map, p5map]; linarith
  have hfA : (7 : ℤ) ≤ baseLinesRGB releaseYear :=
    Int.le_floor.mpr (by exact_mod_cast hA)
  have hfB : baseLinesRGB releaseYear + 1 ≤ numLinesPG releaseYear := by
    have h1 : baseLinesRGB releaseYear + 1 =
        ⌊p5map (circuitYr releaseYear) 1960 2020 18 7 + 1⌋ := by
      rw [baseLinesRGB, Int.floor_add_one]
    rw [h1]
    exact Int.floor_le_floor hAB
  refine ⟨drawCircuits_length rng releaseYear x y w h,
    drawCircuits_toPG_length rng releaseYear x y w h, by omega, ?_, ?_⟩
  · intro t ht
    simp only [drawCircuits, List.mem_map, List.mem_range,
      Bool.true_eq_false, if_false] at ht
    obtain ⟨i, _, rfl⟩ := ht
    simp [traceSteps_length]
  · intro t ht
    simp only [drawCircuits_toPG, List.mem_map, List.mem_range,
      Bool.true_eq_false, if_false] at ht
    obtain ⟨i, _, rfl⟩ := ht
    simp [traceSteps_length]

/-! ### Title word-wrap (`wrapText`)

```js
function wrapText(str, maxW, sizePx) {
  textSize(sizePx || TXT_NAME_1);
  if (textWidth(str) <= maxW) return [str];
  const words = str.split(/\s+/);
  let line1 = '', line2 = '', split = false;
  for (let w of words) {
    const t = line1 ? line1 + ' ' + w : w;
    if (!split && textWidth(t) <= maxW) line1 = t;
    else { split = true; line2 += (line2 ? ' ' : '') + w; }
  }
  return line2 ? [line1, line2] : [line1];
}
```

`textWidth` is a metric provided by the drawing surface; it is abstracted
as `tw : String → ℚ` (the `textSize` call only selects which metric is
active). -/

/-- JS `str.split(/\s+/)` on a character list: tokens between maximal
whitespace runs, with an empty token at the start (resp. end) when the
string starts (resp. ends) with whitespace.  Fuel-structural so the
kernel can evaluate it; fuel `≥ cs.length` suffices. -/
def jsSplitWsF : ℕ → List Char → List (List Char)
  | _, [] => [[]]
  | 0, _ => [[]]
  | fuel + 1, c :: cs =>
    if c.isWhitespace then
      [] :: jsSplitWsF fuel (cs.dropWhile Char.isWhitespace)
    else
      match jsSplitWsF fuel cs with
      | [] => [[c]]
      | t :: ts => (c :: t) :: ts

/-- JS `str.split(/\s+/)` as a list of strings. -/
def jsSplitWs (s : String) : List String :=
  (jsSplitWsF s.data.length s.data).map fun cs => String.mk cs

/-- Words joined by single spaces — the shape in which `line1` and
`line2` accumulate. -/
def joinSp : List String → String
  | [] => ""
  | [w] => w
  | w :: ws => w ++ " " ++ joinSp ws

/-- One iteration of the `wrapText` word loop on state
`(line1, line2, split)`. -/
def wrapStep (tw : String → ℚ) (maxW : ℚ) (st : String × String × Bool)
    (w : String) : String × String × Bool :=
  let t := if st.1 ≠ "" then st.1 ++ " " ++ w else w
  if st.2.2 = false ∧ tw t ≤ maxW then (t, st.2.1, st.2.2)
  else (st.1, (if st.2.1 ≠ "" then st.2.1 ++ " " ++ w else st.2.1 ++ w),
    true)

/-- `wrapText(str, maxW, sizePx)`: `[str]` when the whole string fits,
else the two-line greedy split (one line when `line2` stays empty). -/
def wrapText (tw : String → ℚ) (str : String) (maxW : ℚ) : List String :=
  if tw str ≤ maxW then [str]
  else
    let res := (jsSplitWs str).foldl (wrapStep tw maxW) ("", "", false)
    if res.2.1 ≠ "" then [res.1, res.2.1] else [res.1]

/-- Character-count width metric used for concrete evaluations. -/
def twLen (s : String) : ℚ := (s.data.length : ℚ)

/-- Strings glued around a space are never empty. -/
theorem append_space_ne_empty (a b : String) : a ++ " " ++ b ≠ "" := by
  intro hcontra
  have hdata : (a ++ " " ++ b).data = [] := by rw [hcontra]
  rw [String.data_append, String.data_append] at hdata
  simp at hdata

/-- `joinSp` of cons-cons. -/
theorem joinSp_cons_cons (a b : String) (l : List String) :
    joinSp (a :: b :: l) = a ++ " " ++ joinSp (b :: l) := rfl

/-- A nonempty list of nonempty words joins to a nonempty string. -/
theorem joinSp_ne_empty :
    ∀ l : List String, l ≠ [] → (∀ w ∈ l, w ≠ "") → joinSp l ≠ "" := by
  intro l
  match l with
  | [] => intro h _; exact absurd rfl h
  | [w] => intro _ hw; exact hw w (by simp)
  | a :: b :: t =>
    intro _ _
    rw [joinSp_cons_cons]
    exact append_space_ne_empty a (joinSp (b :: t))

/-- Appending one word to a join. -/
theorem joinSp_append_single :
    ∀ (p : List String) (w : String),
      joinSp (p ++ [w]) = if p = [] then w else joinSp p ++ " " ++ w := by
  intro p
  induction p with
  | nil => intro w; simp [joinSp]
  | cons a t ih =>
    intro w
    rcases t with _ | ⟨b, t2⟩
    · simp [joinSp]
    · have ih2 : joinSp (b :: (t2 ++ [w])) = joinSp (b :: t2) ++ " " ++ w := by
        rw [← List.cons_append, ih w, if_neg (by simp)]
      rw [List.cons_append, List.cons_append, joinSp_cons_cons, ih2,
        if_neg (by simp), joinSp_cons_cons]
      simp [String.append_assoc]

/-- After `split` becomes true, every remaining word is appended to
`line2`. -/
theorem wrapFold_postsplit (tw : String → ℚ) (maxW : ℚ) :
    ∀ (rest : List String) (l1 l2 : String), l2 ≠ "" →
      rest.foldl (wrapStep tw maxW) (l1, l2, true) =
        (l1, joinSp (l2 :: rest), true) := by
  intro rest
  induction rest with
  | nil => intro l1 l2 _; simp [joinSp]
  | cons w ws ih =>
    intro l1 l2 h
    rw [List.foldl_cons]
    have hstep : wrapStep tw maxW (l1, l2, true) w =
        (l1, l2 ++ " " ++ w, true) := by
      simp [wrapStep, h]
    rw [hstep, ih l1 (l2 ++ " " ++ w) (append_space_ne_empty l2 w)]
    rcases ws with _ | ⟨b, t⟩
    · simp [joinSp]
    · rw [joinSp_cons_cons, joinSp_cons_cons, joinSp_cons_cons]
      simp [String.append_assoc]

/-- Main loop invariant of `wrapText`: starting from a greedily filled
prefix `p`, the fold either keeps everything on `line1` (every prefix
fits) or splits at the first word `k` of `rest` that no longer fits. -/
theorem wrapFold_main (tw : String → ℚ) (maxW : ℚ) :
    ∀ (rest p : List String), (∀ w ∈ p ++ rest, w ≠ "") →
      (rest.foldl (wrapStep tw maxW) (joinSp p, "", false) =
          (joinSp (p ++ rest), "", false) ∧
        ∀ j, 0 < j → j ≤ rest.length →
          tw (joinSp (p ++ rest.take j)) ≤ maxW) ∨
      (∃ k, k < rest.length ∧
        rest.foldl (wrapStep tw maxW) (joinSp p, "", false) =
          (joinSp (p ++ rest.take k), joinSp (rest.drop k), true) ∧
        (∀ j, 0 < j → j ≤ k → tw (joinSp (p ++ rest.take j)) ≤ maxW) ∧
        ¬ tw (joinSp (p ++ rest.take (k + 1))) ≤ maxW) := by
  intro rest
  induction rest with
  | nil =>
    intro p _
    left
    refine ⟨by simp, ?_⟩
    intro j hj0 hj
    simp at hj
    omega
  | cons w ws ih =>
    intro p hp
    rw [List.foldl_cons]
    have hw : w ≠ "" := hp w (by simp)
    have hpne : ∀ u ∈ p, u ≠ "" := fun u hu => hp u (by simp [hu])
    have ht : (if joinSp p ≠ "" then joinSp p ++ " " ++ w else w) =
        joinSp (p ++ [w]) := by
      rcases hp2 : p with _ | ⟨a, t⟩
      · simp [joinSp]
      · rw [if_pos (joinSp_ne_empty _ (by simp) (hp2 ▸ hpne)),
          joinSp_append_single, if_neg (by simp)]
    by_cases hfit : tw (joinSp (p ++ [w])) ≤ maxW
    · have hstep : wrapStep tw maxW (joinSp p, "", false) w =
          (joinSp (p ++ [w]), "", false) := by
        simp only [wrapStep, ht]
        simp [hfit]
      rw [hstep]
      have hp' : ∀ u ∈ (p ++ [w]) ++ ws, u ≠ "" := by
        intro u hu
        apply hp u
        simpa using hu
      rcases ih (p ++ [w]) hp' with ⟨hfold, hfits⟩ | ⟨k, hk, hfold, hfits, hfail⟩
      · left
        constructor
        · rw [hfold]
          simp
        · intro j hj0 hj
          rcases j with _ | j1
          · omega
          · rcases Nat.eq_zero_or_pos j1 with hj1 | hj1
            · subst hj1
              simpa using hfit
            · have := hfits j1 hj1 (by simpa using hj)
              simpa [List.append_assoc] using this
      · right
        refine ⟨k + 1, by simpa using hk, ?_, ?_, ?_⟩
        · rw [hfold]
          simp [List.append_assoc]
        · intro j hj0 hj
          rcases j with _ | j1
          · omega
          · rcases Nat.eq_zero_or_pos j1 with hj1 | hj1
            · subst hj1
              simpa using hfit
            · have := hfits j1 hj1 (by omega)
              simpa [List.append_assoc] using this
        · have := hfail
          simpa [List.append_assoc] using this
    · have hstep : wrapStep tw maxW (joinSp p, "", false) w =
          (joinSp p, w, true) := by
        simp only [wrapStep, ht]
        rw [if_neg (by simp [hfit])]
        simp
      rw [hstep, wrapFold_postsplit tw maxW ws (joinSp p) w hw]
      right
      refine ⟨0, by simp, by simp, ?_, by simpa using hfit⟩
      intro j hj0 hj
      omega

/-- C9 counterexample: with the character-count metric and `maxW = 5`,
the string `"aa  bb"` (double space) does not fit — its width is 6 — yet
`wrapText` returns a single line: the greedy loop re-joins the words with
single spaces, `"aa bb"` fits, and `line2` stays empty. -/
theorem C9_counterexample :
    ¬ twLen "aa  bb" ≤ 5 ∧ wrapText twLen "aa  bb" 5 = ["aa bb"] := by
  have e1 : ("aa" ++ " " ++ "bb" : String) = "aa bb" := by decide
  have l0 : ¬ twLen "aa  bb" ≤ 5 := by
    rw [twLen, show ("aa  bb" : String).data.length = 6 from by decide]
    norm_num
  have l1 : twLen "aa" ≤ 5 := by
    rw [twLen, show ("aa" : String).data.length = 2 from by decide]
    norm_num
  have l2 : twLen "aa bb" ≤ 5 := by
    rw [twLen, show ("aa bb" : String).data.length = 5 from by decide]
    norm_num
  refine ⟨l0, ?_⟩
  rw [wrapText, if_neg l0,
    show jsSplitWs "aa  bb" = ["aa", "bb"] from by decide]
  rw [List.foldl_cons, List.foldl_cons, List.foldl_nil]
  rw [show wrapStep twLen 5 ("", "", false) "aa" = ("aa", "", false) from by
    simp [wrapStep, l1]]
  rw [show wrapStep twLen 5 ("aa", "", false) "bb" = ("aa bb", "", false)
    from by simp [wrapStep, e1, l2]]
  simp

/-- C9 amended: for a normalized input — nonempty words joined by single
spaces — `wrapText` returns exactly one line (the string itself) when it
fits, and otherwise exactly two lines: line 1 the longest greedy prefix of
words that fits, line 2 all remaining words, none dropped. -/
theorem C9_wrap_two_lines (tw : String → ℚ) (maxW : ℚ) (str : String)
    (ws : List String) (hne : ws ≠ []) (hwords : ∀ w ∈ ws, w ≠ "")
    (hsplit : jsSplitWs str = ws) (hjoin : joinSp ws = str) :
    (tw str ≤ maxW → wrapText tw str maxW = [str]) ∧
    (¬ tw str ≤ maxW →
      ∃ k, k < ws.length ∧
        wrapText tw str maxW = [joinSp (ws.take k), joinSp (ws.drop k)] ∧
        (∀ j, 0 < j → j ≤ k → tw (joinSp (ws.take j)) ≤ maxW) ∧
        ¬ tw (joinSp (ws.take (k + 1))) ≤ maxW) := by
  constructor
  · intro hfits
    rw [wrapText, if_pos hfits]
  · intro hnof
    rw [wrapText, if_neg hnof, hsplit]
    rcases wrapFold_main tw maxW ws [] (by simpa using hwords) with
      ⟨hfold, hfits⟩ | ⟨k, hk, hfold, hfits, hfail⟩
    · exfalso
      have hlen : 0 < ws.length := List.length_pos.mpr hne
      have hall := hfits ws.length hlen le_rfl
      rw [List.take_length, List.nil_append, hjoin] at hall
      exact hnof hall
    · rw [show joinSp [] = ("" : String) from rfl, List.nil_append] at hfold
      refine ⟨k, hk, ?_, ?_, ?_⟩
      · rw [hfold]
        have hdrop_ne : joinSp (ws.drop k) ≠ "" := by
          refine joinSp_ne_empty _ ?_ ?_
          · simp [List.drop_eq_nil_iff]
            omega
          · intro u hu
            exact hwords u (List.mem_of_mem_drop hu)
        simp only [ne_eq, hdrop_ne, not_false_eq_true, if_true, reduceIte]
      · intro j hj0 hj
        have := hfits j hj0 hj
        simpa using this
      · simpa using hfail

/-- Witness for C9 at the character-count metric, `maxW = 5`, and the
normalized string `"aa bb cc"`. -/
theorem C9_wrap_two_lines_witness :
    (twLen "aa bb cc" ≤ 5 → wrapText twLen "aa bb cc" 5 = ["aa bb cc"]) ∧
    (¬ twLen "aa bb cc" ≤ 5 →
      ∃ k, k < (["aa", "bb", "cc"] : List String).length ∧
        wrapText twLen "aa bb cc" 5 =
          [joinSp ((["aa", "bb", "cc"] : List String).take k),
            joinSp ((["aa", "bb", "cc"] : List String).drop k)] ∧
        (∀ j, 0 < j → j ≤ k →
          twLen (joinSp ((["aa", "bb", "cc"] : List String).take j)) ≤ 5) ∧
        ¬ twLen (joinSp ((["aa", "bb", "cc"] : List String).take (k + 1)))
          ≤ 5) :=
  C9_wrap_two_lines twLen 5 "aa bb cc" ["aa", "bb", "cc"] (by decide)
    (by decide) (by decide) (by decide)

/-! ### Obsolescence-reason wrap (`drawText` / `drawText_toPG`)

```js
if (d.reason_for_obsolescence) {
  const words = d.reason_for_obsolescence.trim().split(/\s+/);
  const maxLines = 3;
  let lines = [], cur = '';
  for (let i = 0; i < words.length; i++) {
    const test = cur ? cur + ' ' + words[i] : words[i];
    if (textWidth(test) <= boxW) cur = test;
    else {
      lines.push(cur);
      cur = words[i];
      if (lines.length === maxLines - 1) break;
    }
  }
  if (lines.length < maxLines && cur) lines.push(cur);
  ...
}
``` -/

/-- JS `String.prototype.trim` on a character list. -/
def trimChars (cs : List Char) : List Char :=
  ((cs.dropWhile Char.isWhitespace).reverse.dropWhile
    Char.isWhitespace).reverse

/-- `reason.trim().split(/\s+/)` as strings. -/
def wordsOfReason (reason : String) : List String :=
  (jsSplitWsF (trimChars reason.data).length (trimChars reason.data)).map
    fun cs => String.mk cs

/-- The word loop of the reason block (`maxLines = 3`): completed lines
are pushed; the push that creates the second line breaks out of the loop,
leaving `cur` holding only the word that failed to fit and dropping every
later word. -/
def reasonLoop (tw : String → ℚ) (maxW : ℚ) :
    List String → List String → String → List String × String
  | [], lines, cur => (lines, cur)
  | w :: ws, lines, cur =>
    let test := if cur ≠ "" then cur ++ " " ++ w else w
    if tw test ≤ maxW then reasonLoop tw maxW ws lines test
    else if lines.length + 1 = 3 - 1 then (lines ++ [cur], w)
    else reasonLoop tw maxW ws (lines ++ [cur]) w

/-- The reason lines `drawText` renders: nothing for an empty (falsy)
reason; otherwise run the loop and push the residual `cur` when fewer
than `maxLines` lines exist and `cur` is nonempty. -/
def drawTextReasonLines (tw : String → ℚ) (maxW : ℚ) (reason : String) :
    List String :=
  if reason ≠ "" then
    let res := reasonLoop tw maxW (wordsOfReason reason) [] ""
    if res.1.length < 3 ∧ res.2 ≠ "" then res.1 ++ [res.2] else res.1
  else []

/-- Reference unbounded greedy wrap (lines as word lists): what the same
greedy loop would produce with no line cap.  Used to state what "the
words would require more than 3 lines" means. -/
def greedyWrapRef (tw : String → ℚ) (maxW : ℚ) :
    List String → List String → List (List String)
  | [], cur => if cur ≠ [] then [cur] else []
  | w :: ws, cur =>
    let test := if cur ≠ [] then joinSp cur ++ " " ++ w else w
    if tw test ≤ maxW then greedyWrapRef tw maxW ws (cur ++ [w])
    else cur :: greedyWrapRef tw maxW ws [w]

/-- The test string both loops build, for a word-list accumulator. -/
theorem joinSp_testL (curW : List String) (w : String)
    (h : ∀ u ∈ curW, u ≠ "") :
    (if joinSp curW ≠ "" then joinSp curW ++ " " ++ w else w) =
      joinSp (curW ++ [w]) := by
  rcases hc : curW with _ | ⟨a, t⟩
  · simp [joinSp]
  · rw [if_pos (joinSp_ne_empty _ (by simp) (hc ▸ h)),
      joinSp_append_single, if_neg (by simp)]

/-- `joinSp curW` is empty exactly when `curW` is, for nonempty words. -/
theorem joinSp_empty_iff (curW : List String) (h : ∀ u ∈ curW, u ≠ "") :
    (joinSp curW ≠ "") ↔ curW ≠ [] := by
  constructor
  · intro hne hcontra
    subst hcontra
    exact hne rfl
  · intro hne
    exact joinSp_ne_empty curW hne h

/-- The first line the greedy reference emits extends its accumulator. -/
theorem greedyWrapRef_head_extend (tw : String → ℚ) (maxW : ℚ) :
    ∀ (ws curW : List String), curW ≠ [] →
      ∃ ext rest,
        greedyWrapRef tw maxW ws curW = (curW ++ ext) :: rest := by
  intro ws
  induction ws with
  | nil =>
    intro curW h
    exact ⟨[], [], by simp [greedyWrapRef, h]⟩
  | cons w ws ih =>
    intro curW h
    simp only [greedyWrapRef]
    by_cases hfit :
        tw (if curW ≠ [] then joinSp curW ++ " " ++ w else w) ≤ maxW
    · rw [if_pos hfit]
      obtain ⟨ext, rest, hh⟩ := ih (curW ++ [w]) (by simp)
      exact ⟨[w] ++ ext, rest, by rw [hh]; simp⟩
    · rw [if_neg hfit]
      exact ⟨[], greedyWrapRef tw maxW ws [w], by simp⟩

/-- With a nonempty accumulator every greedy line is nonempty. -/
theorem greedyWrapRef_all_ne (tw : String → ℚ) (maxW : ℚ) :
    ∀ (ws curW : List String), curW ≠ [] →
      ∀ l ∈ greedyWrapRef tw maxW ws curW, l ≠ [] := by
  intro ws
  induction ws with
  | nil =>
    intro curW h l hl
    simp only [greedyWrapRef, if_pos h] at hl
    rw [List.mem_singleton] at hl
    subst hl
    exact h
  | cons w ws ih =>
    intro curW h l hl
    simp only [greedyWrapRef] at hl
    by_cases hfit :
        tw (if curW ≠ [] then joinSp curW ++ " " ++ w else w) ≤ maxW
    · rw [if_pos hfit] at hl
      exact ih (curW ++ [w]) (by simp) l hl
    · rw [if_neg hfit] at hl
      rcases List.mem_cons.mp hl with rfl | hl2
      · exact h
      · exact ih [w] (by simp) l hl2

/-- Every greedy line after the first is nonempty, whatever the
accumulator. -/
theorem greedyWrapRef_tail_ne (tw : String → ℚ) (maxW : ℚ) :
    ∀ (ws curW head : List String) (rest : List (List String)),
      greedyWrapRef tw maxW ws curW = head :: rest →
      ∀ l ∈ rest, l ≠ [] := by
  intro ws
  induction ws with
  | nil =>
    intro curW head rest heq l hl
    by_cases h : curW = []
    · simp [greedyWrapRef, h] at heq
    · simp only [greedyWrapRef, if_pos h] at heq
      obtain ⟨-, hrest⟩ := List.cons_eq_cons.mp heq
      subst hrest
      simp at hl
  | cons w ws ih =>
    intro curW head rest heq l hl
    simp only [greedyWrapRef] at heq
    by_cases hfit :
        tw (if curW ≠ [] then joinSp curW ++ " " ++ w else w) ≤ maxW
    · rw [if_pos hfit] at heq
      exact ih (curW ++ [w]) head rest heq l hl
    · rw [if_neg hfit] at heq
      obtain ⟨-, hrest⟩ := List.cons_eq_cons.mp heq
      subst hrest
      exact greedyWrapRef_all_ne tw maxW ws [w] (by simp) l hl

/-- The greedy reference keeps every word: its lines flatten back to the
accumulator followed by the remaining words. -/
theorem greedyWrapRef_flatten (tw : String → ℚ) (maxW : ℚ) :
    ∀ (ws curW : List String),
      (greedyWrapRef tw maxW ws curW).flatten = curW ++ ws := by
  intro ws
  induction ws with
  | nil =>
    intro curW
    by_cases h : curW = []
    · simp [greedyWrapRef, h]
    · simp [greedyWrapRef, h]
  | cons w ws ih =>
    intro curW
    simp only [greedyWrapRef]
    by_cases hfit :
        tw (if curW ≠ [] then joinSp curW ++ " " ++ w else w) ≤ maxW
    · rw [if_pos hfit, ih (curW ++ [w])]
      simp
    · rw [if_neg hfit, List.flatten_cons, ih [w]]
      simp

/-- The greedy reference's test string, for the list-shaped condition. -/
theorem joinSp_testW (curW : List String) (w : String) :
    (if curW ≠ [] then joinSp curW ++ " " ++ w else w) =
      joinSp (curW ++ [w]) := by
  rcases curW with _ | ⟨a, t⟩
  · simp [joinSp]
  · rw [if_pos (by simp), joinSp_append_single, if_neg (by simp)]

/-- Relation between the capped loop and the greedy reference when one
line has already been pushed: the next completed line breaks the loop with
`cur` holding the first word of the following greedy line. -/
theorem reasonLoop_rel_one (tw : String → ℚ) (maxW : ℚ) :
    ∀ (ws curW lines : List String),
      (∀ u ∈ ws, u ≠ "") → (∀ u ∈ curW, u ≠ "") →
      (greedyWrapRef tw maxW ws curW = [] →
        reasonLoop tw maxW ws lines (joinSp curW) = (lines, "")) ∧
      (∀ c, greedyWrapRef tw maxW ws curW = [c] →
        reasonLoop tw maxW ws lines (joinSp curW) = (lines, joinSp c)) ∧
      (∀ c1 c2 crest, lines.length = 1 →
        greedyWrapRef tw maxW ws curW = c1 :: c2 :: crest →
        reasonLoop tw maxW ws lines (joinSp curW) =
          (lines ++ [joinSp c1], c2.headD "")) := by
  intro ws
  induction ws with
  | nil =>
    intro curW lines _ _
    refine ⟨?_, ?_, ?_⟩
    · intro hG
      by_cases h : curW = []
      · subst h
        simp [reasonLoop, joinSp]
      · simp [greedyWrapRef, h] at hG
    · intro c hG
      by_cases h : curW = []
      · simp [greedyWrapRef, h] at hG
      · simp only [greedyWrapRef, ne_eq, h, not_false_eq_true, if_true,
          reduceIte] at hG
        obtain ⟨hc, -⟩ := List.cons_eq_cons.mp hG
        subst hc
        simp [reasonLoop]
    · intro c1 c2 crest _ hG
      by_cases h : curW = []
      · simp [greedyWrapRef, h] at hG
      · simp only [greedyWrapRef, ne_eq, h, not_false_eq_true, if_true,
          reduceIte] at hG
        obtain ⟨-, habs⟩ := List.cons_eq_cons.mp hG
        exact absurd habs.symm (List.cons_ne_nil _ _)
  | cons w ws ih =>
    intro curW lines hws hcur
    have hw : w ≠ "" := hws w (by simp)
    have hwstail : ∀ u ∈ ws, u ≠ "" := fun u hu => hws u (by simp [hu])
    have htest : (if joinSp curW ≠ "" then joinSp curW ++ " " ++ w else w)
        = joinSp (curW ++ [w]) := joinSp_testL curW w hcur
    have htestW : (if curW ≠ [] then joinSp curW ++ " " ++ w else w)
        = joinSp (curW ++ [w]) := joinSp_testW curW w
    by_cases hfit : tw (joinSp (curW ++ [w])) ≤ maxW
    · have hG : greedyWrapRef tw maxW (w :: ws) curW =
          greedyWrapRef tw maxW ws (curW ++ [w]) := by
        simp only [greedyWrapRef, htestW]
        rw [if_pos hfit]
      have hR : reasonLoop tw maxW (w :: ws) lines (joinSp curW) =
          reasonLoop tw maxW ws lines (joinSp (curW ++ [w])) := by
        simp only [reasonLoop, htest]
        rw [if_pos hfit]
      have hcur' : ∀ u ∈ curW ++ [w], u ≠ "" := by
        intro u hu
        rcases List.mem_append.mp hu with h1 | h1
        · exact hcur u h1
        · rw [List.mem_singleton] at h1
          subst h1
          exact hw
      obtain ⟨ih1, ih2, ih3⟩ := ih (curW ++ [w]) lines hwstail hcur'
      refine ⟨?_, ?_, ?_⟩
      · intro hGg
        rw [hR]
        exact ih1 (hG.symm.trans hGg)
      · intro c hGg
        rw [hR]
        exact ih2 c (hG.symm.trans hGg)
      · intro c1 c2 crest hlen hGg
        rw [hR]
        exact ih3 c1 c2 crest hlen (hG.symm.trans hGg)
    · have hG : greedyWrapRef tw maxW (w :: ws) curW =
          curW :: greedyWrapRef tw maxW ws [w] := by
        simp only [greedyWrapRef, htestW]
        rw [if_neg hfit]
      obtain ⟨ext, grest0, hGw⟩ :=
        greedyWrapRef_head_extend tw maxW ws [w] (by simp)
      refine ⟨?_, ?_, ?_⟩
      · intro hGg
        rw [hG] at hGg
        exact absurd hGg (List.cons_ne_nil _ _)
      · intro c hGg
        rw [hG] at hGg
        obtain ⟨-, habs⟩ := List.cons_eq_cons.mp hGg
        rw [hGw] at habs
        exact absurd habs (List.cons_ne_nil _ _)
      · intro c1 c2 crest hlen hGg
        rw [hG] at hGg
        obtain ⟨hc1, hrest⟩ := List.cons_eq_cons.mp hGg
        have hR : reasonLoop tw maxW (w :: ws) lines (joinSp curW) =
            (lines ++ [joinSp curW], w) := by
          simp only [reasonLoop, htest]
          rw [if_neg hfit, if_pos (by omega)]
        rw [hR, hc1]
        rw [hGw] at hrest
        obtain ⟨hc2, -⟩ := List.cons_eq_cons.mp hrest
        rw [← hc2]
        simp

/-- Relation between the capped loop started fresh and the greedy
reference: with up to two greedy lines the results agree; from the third
greedy line on, the loop holds the first two greedy lines plus the first
word of greedy line three. -/
theorem reasonLoop_rel_zero (tw : String → ℚ) (maxW : ℚ) :
    ∀ (ws curW : List String),
      (∀ u ∈ ws, u ≠ "") → (∀ u ∈ curW, u ≠ "") →
      (greedyWrapRef tw maxW ws curW = [] →
        reasonLoop tw maxW ws [] (joinSp curW) = ([], "")) ∧
      (∀ c, greedyWrapRef tw maxW ws curW = [c] →
        reasonLoop tw maxW ws [] (joinSp curW) = ([], joinSp c)) ∧
      (∀ c1 c2, greedyWrapRef tw maxW ws curW = [c1, c2] →
        reasonLoop tw maxW ws [] (joinSp curW) =
          ([joinSp c1], joinSp c2)) ∧
      (∀ c1 c2 c3 crest,
        greedyWrapRef tw maxW ws curW = c1 :: c2 :: c3 :: crest →
        reasonLoop tw maxW ws [] (joinSp curW) =
          ([joinSp c1, joinSp c2], c3.headD "")) := by
  intro ws
  induction ws with
  | nil =>
    intro curW _ _
    refine ⟨?_, ?_, ?_, ?_⟩
    · intro hG
      by_cases h : curW = []
      · subst h
        simp [reasonLoop, joinSp]
      · simp [greedyWrapRef, h] at hG
    · intro c hG
      by_cases h : curW = []
      · simp [greedyWrapRef, h] at hG
      · simp only [greedyWrapRef, ne_eq, h, not_false_eq_true, if_true,
          reduceIte] at hG
        obtain ⟨hc, -⟩ := List.cons_eq_cons.mp hG
        subst hc
        simp [reasonLoop]
    · intro c1 c2 hG
      by_cases h : curW = []
      · simp [greedyWrapRef, h] at hG
      · simp only [greedyWrapRef, ne_eq, h, not_false_eq_true, if_true,
          reduceIte] at hG
        obtain ⟨-, habs⟩ := List.cons_eq_cons.mp hG
        exact absurd habs.symm (List.cons_ne_nil _ _)
    · intro c1 c2 c3 crest hG
      by_cases h : curW = []
      · simp [greedyWrapRef, h] at hG
      · simp only [greedyWrapRef, ne_eq, h, not_false_eq_true, if_true,
          reduceIte] at hG
        obtain ⟨-, habs⟩ := List.cons_eq_cons.mp hG
        exact absurd habs.symm (List.cons_ne_nil _ _)
  | cons w ws ih =>
    intro curW hws hcur
    have hw : w ≠ "" := hws w (by simp)
    have hwstail : ∀ u ∈ ws, u ≠ "" := fun u hu => hws u (by simp [hu])
    have htest : (if joinSp curW ≠ "" then joinSp curW ++ " " ++ w else w)
        = joinSp (curW ++ [w]) := joinSp_testL curW w hcur
    have htestW : (if curW ≠ [] then joinSp curW ++ " " ++ w else w)
        = joinSp (curW ++ [w]) := joinSp_testW curW w
    by_cases hfit : tw (joinSp (curW ++ [w])) ≤ maxW
    · have hG : greedyWrapRef tw maxW (w :: ws) curW =
          greedyWrapRef tw maxW ws (curW ++ [w]) := by
        simp only [greedyWrapRef, htestW]
        rw [if_pos hfit]
      have hR : reasonLoop tw maxW (w :: ws) [] (joinSp curW) =
          reasonLoop tw maxW ws [] (joinSp (curW ++ [w])) := by
        simp only [reasonLoop, htest]
        rw [if_pos hfit]
      have hcur' : ∀ u ∈ curW ++ [w], u ≠ "" := by
        intro u hu
        rcases List.mem_append.mp hu with h1 | h1
        · exact hcur u h1
        · rw [List.mem_singleton] at h1
          subst h1
          exact hw
      obtain ⟨ih1, ih2, ih3, ih4⟩ := ih (curW ++ [w]) hwstail hcur'
      refine ⟨?_, ?_, ?_, ?_⟩
      · intro hGg
        rw [hR]
        exact ih1 (hG.symm.trans hGg)
      · intro c hGg
        rw [hR]
        exact ih2 c (hG.symm.trans hGg)
      · intro c1 c2 hGg
        rw [hR]
        exact ih3 c1 c2 (hG.symm.trans hGg)
      · intro c1 c2 c3 crest hGg
        rw [hR]
        exact ih4 c1 c2 c3 crest (hG.symm.trans hGg)
    · have hG : greedyWrapRef tw maxW (w :: ws) curW =
          curW :: greedyWrapRef tw maxW ws [w] := by
        simp only [greedyWrapRef, htestW]
        rw [if_neg hfit]
      obtain ⟨ext, grest0, hGw⟩ :=
        greedyWrapRef_head_extend tw maxW ws [w] (by simp)
      have hwone : ∀ u ∈ ([w] : List String), u ≠ "" := by
        intro u hu
        rw [List.mem_singleton] at hu
        subst hu
        exact hw
      have hR0 : reasonLoop tw maxW (w :: ws) [] (joinSp curW) =
          reasonLoop tw maxW ws [joinSp curW] (joinSp [w]) := by
        simp only [reasonLoop, htest]
        rw [if_neg hfit, if_neg (by norm_num)]
        simp [joinSp]
      obtain ⟨-, m2, m3⟩ :=
        reasonLoop_rel_one tw maxW ws [w] [joinSp curW] hwstail hwone
      refine ⟨?_, ?_, ?_, ?_⟩
      · intro hGg
        rw [hG] at hGg
        exact absurd hGg (List.cons_ne_nil _ _)
      · intro c hGg
        rw [hG] at hGg
        obtain ⟨-, habs⟩ := List.cons_eq_cons.mp hGg
        rw [hGw] at habs
        exact absurd habs (List.cons_ne_nil _ _)
      · intro c1 c2 hGg
        rw [hG] at hGg
        obtain ⟨hc1, hrest⟩ := List.cons_eq_cons.mp hGg
        rw [hR0, m2 c2 hrest, hc1]
      · intro c1 c2 c3 crest hGg
        rw [hG] at hGg
        obtain ⟨hc1, hrest⟩ := List.cons_eq_cons.mp hGg
        rw [hR0, m3 c2 c3 crest (by simp) hrest, hc1]
        simp

/-- The loop never accumulates more than two completed lines. -/
theorem reasonLoop_lines_le (tw : String → ℚ) (maxW : ℚ) :
    ∀ (ws lines : List String) (cur : String), lines.length ≤ 1 →
      (reasonLoop tw maxW ws lines cur).1.length ≤ 2 := by
  intro ws
  induction ws with
  | nil =>
    intro lines cur h
    exact le_trans h (by norm_num)
  | cons w ws ih =>
    intro lines cur h
    simp only [reasonLoop]
    by_cases hfit : tw (if cur ≠ "" then cur ++ " " ++ w else w) ≤ maxW
    · rw [if_pos hfit]
      exact ih lines _ h
    · rw [if_neg hfit]
      by_cases hlen : lines.length + 1 = 3 - 1
      · rw [if_pos hlen]
        simp only [List.length_append, List.length_cons, List.length_nil]
        omega
      · rw [if_neg hlen]
        refine ih _ w ?_
        simp only [List.length_append, List.length_cons, List.length_nil]
        omega

/-- C10: the obsolescence-reason wrap produces at most 3 lines for every
input, and it truncates silently: whenever the greedy wrap of the words
needs a third line, the rendered third line is only the first word of that
greedy third line, and every word after it is dropped. -/
theorem C10_reason_wrap_truncation (tw : String → ℚ) (maxW : ℚ)
    (reason : String) :
    (drawTextReasonLines tw maxW reason).length ≤ 3 ∧
    (reason ≠ "" → (∀ u ∈ wordsOfReason reason, u ≠ "") →
      ∀ g1 g2 g3 grest,
        greedyWrapRef tw maxW (wordsOfReason reason) [] =
          g1 :: g2 :: g3 :: grest →
        ∃ w t, g3 = w :: t ∧
          drawTextReasonLines tw maxW reason =
            [joinSp g1, joinSp g2, w]) := by
  constructor
  · simp only [drawTextReasonLines]
    by_cases hr : reason ≠ ""
    · rw [if_pos hr]
      have hle := reasonLoop_lines_le tw maxW (wordsOfReason reason) [] ""
        (by simp)
      by_cases hcond :
          (reasonLoop tw maxW (wordsOfReason reason) [] "").1.length < 3 ∧
          (reasonLoop tw maxW (wordsOfReason reason) [] "").2 ≠ ""
      · rw [if_pos hcond]
        simp
        omega
      · rw [if_neg hcond]
        omega
    · rw [if_neg hr]
      simp
  · intro hr hwords g1 g2 g3 grest hG
    obtain ⟨-, -, -, h4⟩ :=
      reasonLoop_rel_zero tw maxW (wordsOfReason reason) [] hwords
        (by simp)
    have hres : reasonLoop tw maxW (wordsOfReason reason) [] "" =
        ([joinSp g1, joinSp g2], g3.headD "") :=
      h4 g1 g2 g3 grest hG
    have hg3ne : g3 ≠ [] :=
      greedyWrapRef_tail_ne tw maxW (wordsOfReason reason) [] g1
        (g2 :: g3 :: grest) hG g3 (by simp)
    rcases hg3 : g3 with _ | ⟨w, t⟩
    · exact absurd hg3 hg3ne
    refine ⟨w, t, rfl, ?_⟩
    have hwne : w ≠ "" := by
      apply hwords
      have hmem : w ∈
          (greedyWrapRef tw maxW (wordsOfReason reason) []).flatten :=
        List.mem_flatten.mpr ⟨g3, by rw [hG]; simp, by rw [hg3]; simp⟩
      rwa [greedyWrapRef_flatten, List.nil_append] at hmem
    rw [hg3] at hres
    simp only [drawTextReasonLines, if_pos hr, hres]
    simp [hwne]

/-- Witness for C10 with the character-count metric, `maxW = 2`, and
`"aa bb cc dd"`: the greedy wrap needs 4 lines, the rendered block is
`["aa", "bb", "cc"]` and the word `"dd"` is dropped. -/
theorem C10_reason_wrap_truncation_witness :
    (drawTextReasonLines twLen 2 "aa bb cc dd").length ≤ 3 ∧
    (∃ w t, (["cc"] : List String) = w :: t ∧
      drawTextReasonLines twLen 2 "aa bb cc dd" =
        [joinSp ["aa"], joinSp ["bb"], w]) := by
  have f2 : ∀ s : String, s.data.length = 2 → twLen s ≤ 2 := by
    intro s hs
    rw [twLen, hs]
    norm_num
  have g5 : ∀ s : String, s.data.length = 5 → ¬ twLen s ≤ 2 := by
    intro s hs
    rw [twLen, hs]
    norm_num
  have faa : twLen "aa" ≤ 2 := f2 _ (by decide)
  have e1 : ("aa" ++ " " ++ "bb" : String) = "aa bb" := by decide
  have e2 : ("bb" ++ " " ++ "cc" : String) = "bb cc" := by decide
  have e3 : ("cc" ++ " " ++ "dd" : String) = "cc dd" := by decide
  have gab : ¬ twLen "aa bb" ≤ 2 := g5 _ (by decide)
  have gbc : ¬ twLen "bb cc" ≤ 2 := g5 _ (by decide)
  have gcd : ¬ twLen "cc dd" ≤ 2 := g5 _ (by decide)
  have hwords : wordsOfReason "aa bb cc dd" = ["aa", "bb", "cc", "dd"] :=
    by decide
  have hG : greedyWrapRef twLen 2 (wordsOfReason "aa bb cc dd") [] =
      [["aa"], ["bb"], ["cc"], ["dd"]] := by
    rw [hwords]
    simp [greedyWrapRef, joinSp, faa, e1, e2, e3, gab, gbc, gcd]
  refine ⟨(C10_reason_wrap_truncation twLen 2 "aa bb cc dd").1, ?_⟩
  exact (C10_reason_wrap_truncation twLen 2 "aa bb cc dd").2 (by decide)
    (by rw [hwords]; decide) ["aa"] ["bb"] ["cc"] [["dd"]] hG

/-! ### Ordered dithering (`bayerDither`, `BAYER_4x4`, `BAYER_8x8`)

The effective `bayerDither(pg, matrix, denom, gain, bias)` reads the red
channel of the already-grayscale buffer, applies gain/bias with clamping,
compares against `((matrix[y % n][x % n] + 0.5) / denom) * 255`, and
writes 255 or 0 to R, G and B, copying the source alpha. -/

/-- An RGBA pixel as stored in a `pixels` buffer. -/
structure Px where
  r : ℕ
  g : ℕ
  b : ℕ
  a : ℕ
  deriving DecidableEq

/-- `BAYER_4x4` from sketch.js. -/
def BAYER_4x4 : List (List ℕ) :=
  [[0, 8, 2, 10],
   [12, 4, 14, 6],
   [3, 11, 1, 9],
   [15, 7, 13, 5]]

/-- `BAYER_8x8` from sketch.js. -/
def BAYER_8x8 : List (List ℕ) :=
  [[0, 32, 8, 40, 2, 34, 10, 42],
   [48, 16, 56, 24, 50, 18, 58, 26],
   [12, 44, 4, 36, 14, 46, 6, 38],
   [60, 28, 52, 20, 62, 30, 54, 22],
   [3, 35, 11, 43, 1, 33, 9, 41],
   [51, 19, 59, 27, 49, 17, 57, 25],
   [15, 47, 7, 39, 13, 45, 5, 37],
   [63, 31, 55, 23, 61, 29, 53, 21]]

/-- The per-pixel threshold
`((matrix[y % matrix.length][x % matrix.length] + 0.5) / denom) * 255`. -/
def bayerThreshold (matrix : List (List ℕ)) (denom : ℚ) (x y : ℕ) : ℚ :=
  ((((matrix.getD (y % matrix.length) []).getD (x % matrix.length) 0 : ℚ)
    + 1 / 2) / denom) * 255

/-- One pixel of `bayerDither`: gain and bias on the red (grayscale)
channel, clamp to `[0, 255]`, threshold comparison, binary output with
alpha copied. -/
def bayerDitherPx (matrix : List (List ℕ)) (denom gain bias : ℚ)
    (x y : ℕ) (p : Px) : Px :=
  let v : ℚ := (p.r : ℚ) * gain + bias
  let v2 := if v < 0 then 0 else if v > 255 then 255 else v
  let outV : ℕ := if v2 > bayerThreshold matrix denom x y then 255 else 0
  ⟨outV, outV, outV, p.a⟩

/-- `bayerDither(pg, matrix, denom, gain, bias)` over a `w × h` row-major
buffer: pixel `i` sits at `x = i % w`, `y = i / w`. -/
def bayerDither (w h : ℕ) (pixels : List Px) (matrix : List (List ℕ))
    (denom gain bias : ℚ) : List Px :=
  (List.range (w * h)).map fun i =>
    bayerDitherPx matrix denom gain bias (i % w) (i / w)
      (pixels.getD i ⟨0, 0, 0, 0⟩)

/-- C5: for every buffer, matrix, gain and bias, every output pixel has
R = G = B equal to either 0 or 255, alpha equal to the input pixel's
alpha, and the value is 255 exactly when the clamped gained value exceeds
the Bayer threshold at `(row mod matrixSize, column mod matrixSize)`
scaled to `[0, 255]`. -/
theorem C5_dither_binary (w h : ℕ) (pixels : List Px)
    (matrix : List (List ℕ)) (denom gain bias : ℚ) (i : ℕ)
    (hi : i < w * h) :
    ∃ p, (bayerDither w h pixels matrix denom gain bias)[i]? = some p ∧
      (p.r = 0 ∨ p.r = 255) ∧ p.g = p.r ∧ p.b = p.r ∧
      p.a = (pixels.getD i ⟨0, 0, 0, 0⟩).a ∧
      (p.r = 255 ↔
        (let v : ℚ := ((pixels.getD i ⟨0, 0, 0, 0⟩).r : ℚ) * gain + bias
         let v2 := if v < 0 then 0 else if v > 255 then 255 else v
         v2 > bayerThreshold matrix denom (i % w) (i / w))) := by
  refine ⟨bayerDitherPx matrix denom gain bias (i % w) (i / w)
    (pixels.getD i ⟨0, 0, 0, 0⟩), ?_, ?_, rfl, rfl, rfl, ?_⟩
  · rw [bayerDither, List.getElem?_map, List.getElem?_range hi]
    rfl
  · simp only [bayerDitherPx]
    by_cases hcmp : (let v : ℚ :=
        ((pixels.getD i ⟨0, 0, 0, 0⟩).r : ℚ) * gain + bias
      let v2 := if v < 0 then 0 else if v > 255 then 255 else v
      v2 > bayerThreshold matrix denom (i % w) (i / w))
    · rw [if_pos hcmp]
      right
      rfl
    · rw [if_neg hcmp]
      left
      rfl
  · simp only [bayerDitherPx]
    by_cases hcmp : (let v : ℚ :=
        ((pixels.getD i ⟨0, 0, 0, 0⟩).r : ℚ) * gain + bias
      let v2 := if v < 0 then 0 else if v > 255 then 255 else v
      v2 > bayerThreshold matrix denom (i % w) (i / w))
    · rw [if_pos hcmp]
      simpa using hcmp
    · rw [if_neg hcmp]
      simp only [show (0 : ℕ) = 255 ↔ False by norm_num, false_iff]
      exact hcmp

/-- Witness for C5: a 1×1 buffer holding pixel (200, 10, 20, 123), the
4×4 Bayer matrix, the sketch's gain 1.15 and bias −8. -/
theorem C5_dither_binary_witness :
    ∃ p, (bayerDither 1 1 [⟨200, 10, 20, 123⟩] BAYER_4x4 16 (23/20)
        (-8))[0]? = some p ∧
      (p.r = 0 ∨ p.r = 255) ∧ p.g = p.r ∧ p.b = p.r ∧
      p.a = (([⟨200, 10, 20, 123⟩] : List Px).getD 0 ⟨0, 0, 0, 0⟩).a ∧
      (p.r = 255 ↔
        (let v : ℚ := ((([⟨200, 10, 20, 123⟩] : List Px).getD 0
            ⟨0, 0, 0, 0⟩).r : ℚ) * (23/20) + (-8)
         let v2 := if v < 0 then 0 else if v > 255 then 255 else v
         v2 > bayerThreshold BAYER_4x4 16 (0 % 1) (0 / 1))) :=
  C5_dither_binary 1 1 [⟨200, 10, 20, 123⟩] BAYER_4x4 16 (23/20) (-8) 0
    (by decide)

/-! ### Auto-levels (`autoLevelsGray`), specialized to `gamma = 1`

```js
function autoLevelsGray(pg, clipLow = 0.05, clipHigh = 0.95, gamma = 1.0) {
  // luminance histogram (Math.round(0.2126 r + 0.7152 g + 0.0722 b))
  // cumulative cdf; loTarget/hiTarget clamped to [0, total-1]
  // while (lo < 256 && cdf[lo] <= loTarget) lo++;
  // while (hi >= 0 && cdf[hi] >= hiTarget) hi--;
  // if (hi <= lo) { lo = 0; hi = 255; }
  // v = clamp((lum - lo) * 255/(hi - lo)); v = pow(v/255, gamma)*255;
  // out = Math.round(v) on R, G, B; alpha copied
}
```

The claim under study fixes `gamma = 1`, where
`Math.pow(v/255, 1) * 255 = v`, so the embedding specializes the gamma
stage to the identity. -/

/-- `Math.round` for the nonnegative values that arise here:
`⌊x + 1/2⌋`. -/
def jsRound (x : ℚ) : ℤ := ⌊x + 1 / 2⌋

/-- Rec. 709 luminance `0.2126 r + 0.7152 g + 0.0722 b` in exact
arithmetic. -/
def lumQ (p : Px) : ℚ := (2126 * p.r + 7152 * p.g + 722 * p.b) / 10000

/-- Histogram bin: how many pixels have rounded luminance `v`. -/
def histAL (pxs : List Px) (v : ℕ) : ℕ :=
  pxs.countP fun p => decide (jsRound (lumQ p) = (v : ℤ))

/-- Cumulative histogram, as the source's running sum. -/
def cdfAL (pxs : List Px) : ℕ → ℕ
  | 0 => histAL pxs 0
  | i + 1 => cdfAL pxs i + histAL pxs (i + 1)

/-- `while (lo < 256 && cdf[lo] <= loTarget) lo++`, with structural
fuel. -/
def scanLo (cdf : ℕ → ℕ) (target : ℤ) : ℕ → ℕ → ℕ
  | 0, i => i
  | fuel + 1, i =>
    if i < 256 ∧ (cdf i : ℤ) ≤ target then scanLo cdf target fuel (i + 1)
    else i

/-- `while (hi >= 0 && cdf[hi] >= hiTarget) hi--`, with structural
fuel. -/
def scanHi (cdf : ℕ → ℕ) (target : ℤ) : ℕ → ℤ → ℤ
  | 0, i => i
  | fuel + 1, i =>
    if 0 ≤ i ∧ target ≤ (cdf i.toNat : ℤ) then
      scanHi cdf target fuel (i - 1)
    else i

/-- `autoLevelsGray(pg, clipLow, clipHigh, 1)`: 256 units of fuel cover
the loops' at most 256 iterations (the `lo` loop stops at 256 and the
`hi` loop at −1 exactly when the fuel runs out, matching the loop
guards). -/
def autoLevelsGrayG1 (pxs : List Px) (clipLow clipHigh : ℚ) : List Px :=
  let total := pxs.length
  let loTarget : ℤ :=
    max 0 (min ((total : ℤ) - 1) ⌊(total : ℚ) * clipLow⌋)
  let hiTarget : ℤ :=
    max 0 (min ((total : ℤ) - 1) ⌊(total : ℚ) * clipHigh⌋)
  let lo := scanLo (cdfAL pxs) loTarget 256 0
  let hi := scanHi (cdfAL pxs) hiTarget 256 255
  let lo2 : ℕ := if hi ≤ (lo : ℤ) then 0 else lo
  let hi2 : ℤ := if hi ≤ (lo : ℤ) then 255 else hi
  let scale : ℚ := 255 / ((hi2 : ℚ) - (lo2 : ℚ))
  pxs.map fun p =>
    let v := (lumQ p - (lo2 : ℚ)) * scale
    let v2 := if v < 0 then 0 else if v > 255 then 255 else v
    let val := (jsRound v2).toNat
    ⟨val, val, val, p.a⟩

/-- Rounded luminances are nonnegative. -/
theorem jsRound_lum_nonneg (p : Px) : 0 ≤ jsRound (lumQ p) := by
  rw [jsRound]
  refine Int.le_floor.mpr ?_
  have h : (0 : ℚ) ≤ lumQ p := by
    rw [lumQ]
    positivity
  push_cast
  linarith

/-- `Math.round` of a whole number. -/
theorem jsRound_natCast (c : ℕ) : jsRound ((c : ℚ)) = c := by
  rw [jsRound,
    show ((c : ℚ) + 1 / 2) = ((c : ℤ) : ℚ) + 1 / 2 by push_cast; ring,
    Int.floor_int_add]
  norm_num

/-- Grayscale pixels have their channel value as luminance. -/
theorem lumQ_gray (p : Px) (h1 : p.g = p.r) (h2 : p.b = p.r) :
    lumQ p = (p.r : ℚ) := by
  rw [lumQ, h1, h2]
  push_cast
  ring

/-- Counting `≤ i` and `= i + 1` together counts `≤ i + 1`. -/
theorem countP_le_add_eq (l : List Px) (i : ℕ) :
    (l.countP fun p => decide (jsRound (lumQ p) ≤ (i : ℤ))) +
      (l.countP fun p => decide (jsRound (lumQ p) = (i : ℤ) + 1)) =
    l.countP fun p => decide (jsRound (lumQ p) ≤ (i : ℤ) + 1) := by
  induction l with
  | nil => simp
  | cons p l ih =>
    simp only [List.countP_cons]
    by_cases h1 : jsRound (lumQ p) ≤ (i : ℤ) <;>
      by_cases h2 : jsRound (lumQ p) = (i : ℤ) + 1
    · omega
    · have h3 : jsRound (lumQ p) ≤ (i : ℤ) + 1 := by omega
      simp [h1, h2, h3]
      omega
    · have h3 : jsRound (lumQ p) ≤ (i : ℤ) + 1 := by omega
      simp [h1, h2, h3]
      omega
    · have h3 : ¬ jsRound (lumQ p) ≤ (i : ℤ) + 1 := by omega
      simp [h1, h2, h3]
      omega

/-- The cumulative histogram counts pixels with rounded luminance at most
the bin index. -/
theorem cdfAL_countP (pxs : List Px) :
    ∀ i, cdfAL pxs i =
      pxs.countP fun p => decide (jsRound (lumQ p) ≤ (i : ℤ)) := by
  intro i
  induction i with
  | zero =>
    simp only [cdfAL, histAL]
    refine List.countP_congr ?_
    intro p _
    have h0 := jsRound_lum_nonneg p
    constructor <;> intro h <;> simp_all <;> omega
  | succ n ih =>
    simp only [cdfAL, ih, histAL]
    rw [show ((n + 1 : ℕ) : ℤ) = (n : ℤ) + 1 by push_cast; ring]
    exact countP_le_add_eq pxs n

/-- The ascending scan stops immediately when the guard fails. -/
theorem scanLo_stop (cdf : ℕ → ℕ) (target : ℤ) (fuel i : ℕ)
    (h : ¬(i < 256 ∧ (cdf i : ℤ) ≤ target)) :
    scanLo cdf target fuel i = i := by
  cases fuel with
  | zero => rfl
  | succ f => simp only [scanLo, if_neg h]

/-- The descending scan takes a step while the guard holds. -/
theorem scanHi_step (cdf : ℕ → ℕ) (target : ℤ) (fuel : ℕ) (i : ℤ)
    (h : 0 ≤ i ∧ target ≤ (cdf i.toNat : ℤ)) :
    scanHi cdf target (fuel + 1) i = scanHi cdf target fuel (i - 1) := by
  simp only [scanHi, if_pos h]

/-- The descending scan stops when the guard fails. -/
theorem scanHi_stop (cdf : ℕ → ℕ) (target : ℤ) (fuel : ℕ) (i : ℤ)
    (h : ¬(0 ≤ i ∧ target ≤ (cdf i.toNat : ℤ))) :
    scanHi cdf target fuel i = i := by
  cases fuel with
  | zero => rfl
  | succ f => simp only [scanHi, if_neg h]

/-- Two pointwise-incompatible predicates never count more than the
length. -/
theorem countP_two_le_length (l : List Px) (p q : Px → Bool)
    (hdisj : ∀ x ∈ l, ¬(p x = true ∧ q x = true)) :
    l.countP p + l.countP q ≤ l.length := by
  induction l with
  | nil => simp
  | cons a t ih =>
    simp only [List.countP_cons, List.length_cons]
    have hd := hdisj a (by simp)
    have ht : ∀ x ∈ t, ¬(p x = true ∧ q x = true) := fun x hx =>
      hdisj x (by simp [hx])
    have hih := ih ht
    by_cases hp : p a = true
    · by_cases hq : q a = true
      · exact absurd ⟨hp, hq⟩ hd
      · simp [hp, hq]
        omega
    · by_cases hq : q a = true
      · simp [hp, hq]
        omega
      · simp [hp, hq]
        omega

/-- Rescaling by `255/254` and rounding moves a byte value by at most
one (the value 255 is clamped back to 255). -/
theorem rescale_near (c : ℕ) (hc : c ≤ 255) :
    ((jsRound (if (c : ℚ) * (255 / 254) < 0 then 0
        else if (c : ℚ) * (255 / 254) > 255 then 255
        else (c : ℚ) * (255 / 254))).toNat : ℤ) - (c : ℤ) ≤ 1 ∧
    (c : ℤ) - ((jsRound (if (c : ℚ) * (255 / 254) < 0 then 0
        else if (c : ℚ) * (255 / 254) > 255 then 255
        else (c : ℚ) * (255 / 254))).toNat : ℤ) ≤ 1 := by
  have hx0 : ¬ ((c : ℚ) * (255 / 254) < 0) := by
    push_neg
    positivity
  by_cases hover : (c : ℚ) * (255 / 254) > 255
  · have hcge : (254 : ℚ) < (c : ℚ) := by linarith
    have hc254 : 254 < c := by exact_mod_cast hcge
    have hc255 : c = 255 := by omega
    rw [if_neg hx0, if_pos hover]
    have h255 : jsRound ((255 : ℕ) : ℚ) = ((255 : ℕ) : ℤ) :=
      jsRound_natCast 255
    rw [show (255 : ℚ) = ((255 : ℕ) : ℚ) by norm_num, h255]
    subst hc255
    constructor <;> simp
  · rw [if_neg hx0, if_neg hover]
    have hcle : (c : ℚ) ≤ 254 := by linarith
    have hc0 : (0 : ℚ) ≤ (c : ℚ) := Nat.cast_nonneg c
    have hxlo : (c : ℚ) ≤ (c : ℚ) * (255 / 254) := by linarith
    have hxhi : (c : ℚ) * (255 / 254) ≤ (c : ℚ) + 1 := by linarith
    have hlo2 : (c : ℤ) ≤ jsRound ((c : ℚ) * (255 / 254)) := by
      rw [jsRound]
      refine Int.le_floor.mpr ?_
      push_cast
      linarith
    have hhi2 : jsRound ((c : ℚ) * (255 / 254)) ≤ (c : ℤ) + 1 := by
      rw [jsRound]
      have hfl : ⌊(c : ℚ) * (255 / 254) + 1 / 2⌋ < (c : ℤ) + 2 := by
        refine Int.floor_lt.mpr ?_
        push_cast
        linarith
      omega
    have hnn2 : 0 ≤ jsRound ((c : ℚ) * (255 / 254)) :=
      le_trans (Int.ofNat_nonneg c) hlo2
    rw [Int.toNat_of_nonneg hnn2]
    omega

/-- C2 amended: with `clipLow = 0`, `clipHigh = 1`, `gamma = 1`, a
grayscale image that contains a 0-valued pixel and at least two
255-valued pixels comes back unchanged up to ±1 per channel, alpha
untouched.  (With only one 255-valued pixel the high cutoff drops to the
next occupied bin and the image is genuinely rescaled.) -/
theorem C2_autolevels_near_identity (pxs : List Px)
    (hgray : ∀ p ∈ pxs, p.g = p.r ∧ p.b = p.r ∧ p.r ≤ 255)
    (h0 : 1 ≤ pxs.countP fun p => decide (p.r = 0))
    (h255 : 2 ≤ pxs.countP fun p => decide (p.r = 255))
    (i : ℕ) (hi : i < pxs.length) :
    ∃ q, (autoLevelsGrayG1 pxs 0 1)[i]? = some q ∧
      q.a = pxs[i].a ∧ q.g = q.r ∧ q.b = q.r ∧
      (q.r : ℤ) - (pxs[i].r : ℤ) ≤ 1 ∧
      (pxs[i].r : ℤ) - (q.r : ℤ) ≤ 1 := by
  have htot1 : 1 ≤ pxs.length :=
    le_trans h0 (List.countP_le_length _)
  have hround : ∀ p ∈ pxs, jsRound (lumQ p) = (p.r : ℤ) := by
    intro p hp
    obtain ⟨hg, hb, -⟩ := hgray p hp
    rw [lumQ_gray p hg hb, jsRound_natCast]
  have hcdf255 : cdfAL pxs 255 = pxs.length := by
    rw [cdfAL_countP]
    refine List.countP_eq_length.mpr ?_
    intro p hp
    simp only [decide_eq_true_eq]
    rw [hround p hp]
    exact_mod_cast (hgray p hp).2.2
  have hcdf0 : 1 ≤ cdfAL pxs 0 := by
    rw [cdfAL_countP]
    refine le_trans h0 (List.countP_mono_left ?_)
    intro p hp hpr
    simp only [decide_eq_true_eq] at hpr ⊢
    rw [hround p hp, hpr]
  have hcdf254 : cdfAL pxs 254 + 2 ≤ pxs.length := by
    rw [cdfAL_countP]
    have hd : pxs.countP
          (fun p => decide (jsRound (lumQ p) ≤ ((254 : ℕ) : ℤ)))
        + pxs.countP (fun p => decide (p.r = 255)) ≤ pxs.length := by
      refine countP_two_le_length _ _ _ ?_
      intro p hp
      simp only [decide_eq_true_eq]
      rintro ⟨hle2, h255p⟩
      rw [hround p hp, h255p] at hle2
      omega
    omega
  have hLoT : max 0 (min ((pxs.length : ℤ) - 1)
      ⌊(pxs.length : ℚ) * 0⌋) = 0 := by
    rw [show ((pxs.length : ℚ) * 0) = 0 by ring, Int.floor_zero]
    omega
  have hHiT : max 0 (min ((pxs.length : ℤ) - 1)
      ⌊(pxs.length : ℚ) * 1⌋) = (pxs.length : ℤ) - 1 := by
    rw [show ((pxs.length : ℚ) * 1) = ((pxs.length : ℕ) : ℚ) by
      push_cast; ring, Int.floor_natCast]
    omega
  have hlo : scanLo (cdfAL pxs) 0 256 0 = 0 := by
    refine scanLo_stop _ _ _ _ ?_
    rintro ⟨-, hle⟩
    omega
  have hs1 : scanHi (cdfAL pxs) ((pxs.length : ℤ) - 1) 256 255 =
      scanHi (cdfAL pxs) ((pxs.length : ℤ) - 1) 255 254 := by
    rw [show (256 : ℕ) = 255 + 1 from rfl]
    rw [scanHi_step _ _ _ _ ⟨by norm_num, by
      rw [show ((255 : ℤ)).toNat = 255 from rfl, hcdf255]; omega⟩]
    norm_num
  have hs2 : scanHi (cdfAL pxs) ((pxs.length : ℤ) - 1) 255 254 = 254 := by
    refine scanHi_stop _ _ _ _ ?_
    rintro ⟨-, hge⟩
    rw [show ((254 : ℤ)).toNat = 254 from rfl] at hge
    omega
  have hmain : autoLevelsGrayG1 pxs 0 1 = pxs.map fun p =>
      let v : ℚ := lumQ p * (255 / 254)
      let v2 := if v < 0 then 0 else if v > 255 then 255 else v
      let val := (jsRound v2).toNat
      ⟨val, val, val, p.a⟩ := by
    simp only [autoLevelsGrayG1]
    rw [hLoT, hHiT, hlo, hs1, hs2]
    norm_num
  obtain ⟨hg, hb, hle⟩ := hgray pxs[i] (List.getElem_mem hi)
  have hq : (autoLevelsGrayG1 pxs 0 1)[i]? = some ((fun p : Px =>
      let v : ℚ := lumQ p * (255 / 254)
      let v2 := if v < 0 then 0 else if v > 255 then 255 else v
      let val := (jsRound v2).toNat
      (⟨val, val, val, p.a⟩ : Px)) pxs[i]) := by
    rw [hmain, List.getElem?_map, List.getElem?_eq_getElem hi]
    rfl
  refine ⟨_, hq, rfl, rfl, rfl, ?_, ?_⟩
  · show ((jsRound (if lumQ pxs[i] * (255 / 254) < 0 then 0
        else if lumQ pxs[i] * (255 / 254) > 255 then 255
        else lumQ pxs[i] * (255 / 254))).toNat : ℤ) - (pxs[i].r : ℤ) ≤ 1
    rw [lumQ_gray _ hg hb]
    exact (rescale_near pxs[i].r hle).1
  · show (pxs[i].r : ℤ) -
        ((jsRound (if lumQ pxs[i] * (255 / 254) < 0 then 0
        else if lumQ pxs[i] * (255 / 254) > 255 then 255
        else lumQ pxs[i] * (255 / 254))).toNat : ℤ) ≤ 1
    rw [lumQ_gray _ hg hb]
    exact (rescale_near pxs[i].r hle).2

/-- The four-pixel grayscale test image for the C2 counterexample: full
range (it holds 0 and 255), with a single 255-pixel and a 252-pixel. -/
def imgC2 : List Px :=
  [⟨0, 0, 0, 9⟩, ⟨0, 0, 0, 9⟩, ⟨252, 252, 252, 9⟩, ⟨255, 255, 255, 9⟩]

/-- Rounded luminances of the three pixel values in `imgC2`. -/
theorem imgC2_round0 : jsRound (lumQ ⟨0, 0, 0, 9⟩) = 0 := by
  norm_num [lumQ, jsRound]

theorem imgC2_round252 : jsRound (lumQ ⟨252, 252, 252, 9⟩) = 252 := by
  norm_num [lumQ, jsRound]

theorem imgC2_round255 : jsRound (lumQ ⟨255, 255, 255, 9⟩) = 255 := by
  norm_num [lumQ, jsRound]

/-- C2 counterexample: `imgC2` is grayscale and spans the full range
`[0, 255]`, yet auto-levels with `clipLow = 0`, `clipHigh = 1`,
`gamma = 1` maps its 252-pixel to 255 — a change of 3, beyond any
rounding of an identity rescale.  The `hi` scan walks below 255 while the
cumulative count stays ≥ total−1, landing at 251, so the image is
rescaled by `255/251`. -/
theorem C2_counterexample :
    (∀ p ∈ imgC2, p.g = p.r ∧ p.b = p.r ∧ p.r ≤ 255) ∧
    (∃ p ∈ imgC2, p.r = 0) ∧ (∃ p ∈ imgC2, p.r = 255) ∧
    imgC2[2]? = some ⟨252, 252, 252, 9⟩ ∧
    (autoLevelsGrayG1 imgC2 0 1)[2]? = some ⟨255, 255, 255, 9⟩ := by
  have hc0 : cdfAL imgC2 0 = 2 := by
    rw [cdfAL_countP]
    simp [imgC2, imgC2_round0, imgC2_round252, imgC2_round255]
  have hcdf : ∀ k : ℕ, 252 ≤ k → k ≤ 254 → cdfAL imgC2 k = 3 := by
    intro k h1 h2
    rw [cdfAL_countP]
    have e0 : (0 : ℤ) ≤ (k : ℤ) := by omega
    have e252 : (252 : ℤ) ≤ (k : ℤ) := by omega
    have e255 : ¬ ((255 : ℤ) ≤ (k : ℤ)) := by omega
    simp [imgC2, imgC2_round0, imgC2_round252, imgC2_round255, e0, e252,
      e255]
  have hc251 : cdfAL imgC2 251 = 2 := by
    rw [cdfAL_countP]
    simp [imgC2, imgC2_round0, imgC2_round252, imgC2_round255]
  have hc255 : cdfAL imgC2 255 = 4 := by
    rw [cdfAL_countP]
    simp [imgC2, imgC2_round0, imgC2_round252, imgC2_round255]
  have hLoT : max 0 (min ((imgC2.length : ℤ) - 1)
      ⌊(imgC2.length : ℚ) * 0⌋) = 0 := by
    norm_num [imgC2]
  have hHiT : max 0 (min ((imgC2.length : ℤ) - 1)
      ⌊(imgC2.length : ℚ) * 1⌋) = 3 := by
    norm_num [imgC2]
  have hlo : scanLo (cdfAL imgC2) 0 256 0 = 0 := by
    refine scanLo_stop _ _ _ _ ?_
    rintro ⟨-, h⟩
    rw [hc0] at h
    norm_num at h
  have hs1 : scanHi (cdfAL imgC2) 3 256 255 =
      scanHi (cdfAL imgC2) 3 255 254 := by
    rw [show (256 : ℕ) = 255 + 1 from rfl]
    rw [scanHi_step _ _ _ _ ⟨by norm_num, by
      rw [show ((255 : ℤ)).toNat = 255 from rfl, hc255]; norm_num⟩]
    norm_num
  have hs2 : scanHi (cdfAL imgC2) 3 255 254 =
      scanHi (cdfAL imgC2) 3 254 253 := by
    rw [show (255 : ℕ) = 254 + 1 from rfl]
    rw [scanHi_step _ _ _ _ ⟨by norm_num, by
      rw [show ((254 : ℤ)).toNat = 254 from rfl,
        hcdf 254 (by norm_num) (by norm_num)]; norm_num⟩]
    norm_num
  have hs3 : scanHi (cdfAL imgC2) 3 254 253 =
      scanHi (cdfAL imgC2) 3 253 252 := by
    rw [show (254 : ℕ) = 253 + 1 from rfl]
    rw [scanHi_step _ _ _ _ ⟨by norm_num, by
      rw [show ((253 : ℤ)).toNat = 253 from rfl,
        hcdf 253 (by norm_num) (by norm_num)]; norm_num⟩]
    norm_num
  have hs4 : scanHi (cdfAL imgC2) 3 253 252 =
      scanHi (cdfAL imgC2) 3 252 251 := by
    rw [show (253 : ℕ) = 252 + 1 from rfl]
    rw [scanHi_step _ _ _ _ ⟨by norm_num, by
      rw [show ((252 : ℤ)).toNat = 252 from rfl,
        hcdf 252 (by norm_num) (by norm_num)]; norm_num⟩]
    norm_num
  have hs5 : scanHi (cdfAL imgC2) 3 252 251 = 251 := by
    refine scanHi_stop _ _ _ _ ?_
    rintro ⟨-, h⟩
    rw [show ((251 : ℤ)).toNat = 251 from rfl, hc251] at h
    norm_num at h
  have hfinal : autoLevelsGrayG1 imgC2 0 1 = imgC2.map fun p =>
      let v : ℚ := lumQ p * (255 / 251)
      let v2 := if v < 0 then 0 else if v > 255 then 255 else v
      let val := (jsRound v2).toNat
      ⟨val, val, val, p.a⟩ := by
    simp only [autoLevelsGrayG1]
    rw [hLoT, hHiT, hlo, hs1, hs2, hs3, hs4, hs5]
    norm_num
  refine ⟨by decide, ⟨⟨0, 0, 0, 9⟩, by decide, rfl⟩,
    ⟨⟨255, 255, 255, 9⟩, by decide, rfl⟩, by decide, ?_⟩
  rw [hfinal]
  rw [show imgC2.map (fun p =>
      let v : ℚ := lumQ p * (255 / 251)
      let v2 := if v < 0 then 0 else if v > 255 then 255 else v
      let val := (jsRound v2).toNat
      (⟨val, val, val, p.a⟩ : Px)) =
    [⟨0, 0, 0, 9⟩, ⟨0, 0, 0, 9⟩, ⟨252, 252, 252, 9⟩,
      ⟨255, 255, 255, 9⟩].map (fun p =>
      let v : ℚ := lumQ p * (255 / 251)
      let v2 := if v < 0 then 0 else if v > 255 then 255 else v
      let val := (jsRound v2).toNat
      (⟨val, val, val, p.a⟩ : Px)) from rfl]
  rw [List.map_cons, List.map_cons, List.map_cons]
  show _ = some _
  rw [List.getElem?_cons_succ, List.getElem?_cons_succ,
    List.getElem?_cons_zero]
  have hval : lumQ ⟨252, 252, 252, 9⟩ * (255 / 251) > 255 := by
    norm_num [lumQ]
  simp only [hval, if_pos, if_neg]
  norm_num [lumQ, jsRound]
  rfl

/-- Witness for the amended C2 at the three-pixel image
`[0, 255, 255]` (alphas 1, 2, 3), probing pixel 1. -/
theorem C2_autolevels_near_identity_witness :
    ∃ q, (autoLevelsGrayG1
        [⟨0, 0, 0, 1⟩, ⟨255, 255, 255, 2⟩, ⟨255, 255, 255, 3⟩] 0 1)[1]? =
      some q ∧
      q.a = ([⟨0, 0, 0, 1⟩, ⟨255, 255, 255, 2⟩, ⟨255, 255, 255, 3⟩] :
        List Px)[1].a ∧
      q.g = q.r ∧ q.b = q.r ∧
      (q.r : ℤ) - ((([⟨0, 0, 0, 1⟩, ⟨255, 255, 255, 2⟩,
        ⟨255, 255, 255, 3⟩] : List Px)[1].r : ℤ)) ≤ 1 ∧
      ((([⟨0, 0, 0, 1⟩, ⟨255, 255, 255, 2⟩,
        ⟨255, 255, 255, 3⟩] : List Px)[1].r : ℤ)) - (q.r : ℤ) ≤ 1 :=
  C2_autolevels_near_identity
    [⟨0, 0, 0, 1⟩, ⟨255, 255, 255, 2⟩, ⟨255, 255, 255, 3⟩]
    (by decide) (by decide) (by decide) 1 (by decide)

end LostCircuits
